import Mathlib

/-!
serv00-save-me: account checks and scheduled notifications.

A shallow embedding of `server/app.js`.

JavaScript strings are modelled as `List Char` (the code points of a
well-formed string); every string operation the program uses (`split` on a
one-character separator, `startsWith`, the two node regular expressions,
`parseInt`) acts the same way on code points as on UTF-16 code units.  The
only place where the difference shows is `String.prototype.length`, which is
modelled by `utf16Length`.

JavaScript objects used as dictionaries are modelled as association lists of
their own properties in insertion order.  The order in which `Object.keys`
lists integer-like keys is not modelled: where the order matters it is taken as
given.
-/

set_option autoImplicit false

deriving instance DecidableEq for Except

namespace Serv00

/-! ## JavaScript values -/

/-- The JavaScript values the program observes.  `entry status season` is the object
`{status, season}` that GET /checkAccounts puts in `results`; `object` stands for any
other plain object, which the program does not inspect further; `num` carries an
integer, the program observing of a number only whether it is zero. -/
inductive JsVal where
  | undefined
  | null
  | bool (b : Bool)
  | num (n : Int)
  | str (s : List Char)
  | entry (status : List Char) (season : JsVal)
  | object
  deriving DecidableEq, Repr

/-- Errors raised by the modelled code. -/
inductive JsError where
  | typeError
  | requestFailed
  | invalidCron
  deriving DecidableEq, Repr

/-- ToBoolean. -/
def JsVal.truthy : JsVal → Bool
  | .undefined => false
  | .null => false
  | .bool b => b
  | .num n => n != 0
  | .str s => !s.isEmpty
  | .entry _ _ => true
  | .object => true

/-- The operator `a || b`. -/
def jsOr (a b : JsVal) : JsVal := if a.truthy then a else b

/-- The key whose assignment on an ordinary object goes to the
`Object.prototype.__proto__` setter instead of creating an own property. -/
def protoKey : List Char := "__proto__".toList

/-- Own enumerable string keys of a dictionary object. -/
def objectKeys {V : Type} (o : List (List Char × V)) : List (List Char) := o.map Prod.fst

/-- The assignment `o[k] = v` on an ordinary object created by `{}`, as far as
own properties go: an existing own property is overwritten in place, a new one
is appended, and the key `__proto__` creates no own property. -/
def setProp {V : Type} (o : List (List Char × V)) (k : List Char) (v : V) :
    List (List Char × V) :=
  if k = protoKey then o
  else if k ∈ objectKeys o then o.map (fun p => if p.1 = k then (k, v) else p)
  else o ++ [(k, v)]

/-- The expression `delete o[k]`. -/
def deleteProp {V : Type} (o : List (List Char × V)) (k : List Char) : List (List Char × V) :=
  o.filter (fun p => p.1 ≠ k)

/-- The expression `o[k]` on an own property (`none` is `undefined`). -/
def getProp {V : Type} (o : List (List Char × V)) (k : List Char) : Option V :=
  (o.find? (fun p => p.1 = k)).map Prod.snd

/-- The method `String.prototype.split(sep)` for a separator of one character. -/
def splitOn (sep : Char) : List Char → List (List Char)
  | [] => [[]]
  | c :: cs =>
    if c = sep then [] :: splitOn sep cs
    else
      match splitOn sep cs with
      | [] => [[c]]
      | p :: ps => (c :: p) :: ps

/-! ## Account store -/

/-- An account record of `accounts.json`, observed only through
`accounts[username]?.season` (`undefined` for a `null` record or one
without the field). -/
structure Account where
  season : JsVal
  deriving DecidableEq, Repr

/-- The function `getAccounts(excludeMainUser)`; `none` is a missing `accounts.json`. -/
def getAccounts (mainUser : List Char) (file : Option (List (List Char × Account)))
    (excludeMainUser : Bool) : List (List Char × Account) :=
  match file with
  | none => []
  | some accounts => if excludeMainUser then deleteProp accounts mainUser else accounts

/-! ## GET /checkAccounts -/

/-- The value `response.data` of a status probe: `nullish` is `null` or
`undefined` (reading `data.message` raises); otherwise `message` is what
`data.message` evaluates to (`undefined` when the property is absent). -/
inductive ResponseData where
  | nullish
  | withMessage (message : JsVal)
  deriving DecidableEq, Repr

/-- Outcome of `axios.get` for one account. -/
inductive Probe where
  | failed
  | ok (data : ResponseData)
  deriving DecidableEq, Repr

/-- One value of the `results` mapping. -/
structure Entry where
  status : List Char
  season : JsVal
  deriving DecidableEq, Repr

/-- The delimiter of the status message, the full-width colon. -/
def delimiter : Char := '：'

def unknownStatus : List Char := "未知状态".toList
def checkFailed : List Char := "检测失败".toList
def noSeason : List Char := "--".toList

/-- Lines 222-226: the status derived from `data.message`. -/
def parseStatus (message : JsVal) : Except JsError (List Char) :=
  if message.truthy then
    match message with
    | .str s =>
      let parts := splitOn delimiter s
      .ok (if parts.length > 1 then parts.getLast?.getD [] else s)
    | _ => .error .typeError
  else .ok unknownStatus

/-- The body of the `try` block, lines 216-232: the status to record. -/
def probeStatus : Probe → Except JsError (List Char)
  | .failed => .error .requestFailed
  | .ok .nullish => .error .typeError
  | .ok (.withMessage m) => parseStatus m

/-- The expression `accounts[username]?.season || "--"`. -/
def seasonOf (accounts : List (List Char × Account)) (username : List Char) : JsVal :=
  jsOr ((getProp accounts username).elim .undefined Account.season) (.str noSeason)

/-- The entry assigned to `results[username]`, by the `try` block or by its `catch`. -/
def entryFor (accounts : List (List Char × Account)) (probe : List Char → Probe)
    (username : List Char) : Entry :=
  match probeStatus (probe username) with
  | .ok status => { status := status, season := seasonOf accounts username }
  | .error _ => { status := checkFailed, season := seasonOf accounts username }

/-- The `results` object of the handler.  The callbacks assign `results[username]`
in the order `order` in which the probes complete. -/
def checkAccountsResults (accounts : List (List Char × Account)) (probe : List Char → Probe)
    (order : List (List Char)) : List (List Char × Entry) :=
  order.foldl (fun results username => setProp results username (entryFor accounts probe username)) []

/-- The handler of GET /checkAccounts: the `results` field of its answer. -/
def checkAccounts (mainUser : List Char) (file : Option (List (List Char × Account)))
    (probe : List Char → Probe) (order : List (List Char)) : List (List Char × Entry) :=
  let accounts := getAccounts mainUser file true
  let users := objectKeys accounts
  if users.length = 0 then [] else checkAccountsResults accounts probe order

/-! ## Node discovery -/

/-- The class `\s` of a JavaScript regular expression, which is also the set of
characters `parseInt` skips at the start of its argument. -/
def isJsWhiteSpace (c : Char) : Bool :=
  let n := c.toNat
  n = 0x9 || n = 0xA || n = 0xB || n = 0xC || n = 0xD || n = 0x20 || n = 0xA0 ||
  n = 0x1680 || (0x2000 ≤ n && n ≤ 0x200A) || n = 0x2028 || n = 0x2029 ||
  n = 0x202F || n = 0x205F || n = 0x3000 || n = 0xFEFF

/-- The class `[^\s<>"]`. -/
def nodeChar (c : Char) : Bool :=
  !(isJsWhiteSpace c || c = '<' || c = '>' || c = '"')

def vmessScheme : List Char := "vmess://".toList
def hysteria2Scheme : List Char := "hysteria2://".toList

/-- Scanner for `s.match(/<scheme>[^\s<>"]+/g) || []`: `skip` is the number of
characters still covered by the previous match.  A match is the scheme followed
by the longest non-empty run of `nodeChar`; the scan resumes after it. -/
def matchSchemeAux (scheme : List Char) : Nat → List Char → List (List Char)
  | _, [] => []
  | skip + 1, _ :: cs => matchSchemeAux scheme skip cs
  | 0, c :: cs =>
    let run := ((c :: cs).drop scheme.length).takeWhile nodeChar
    if scheme.isPrefixOf (c :: cs) && 0 < run.length then
      (scheme ++ run) :: matchSchemeAux scheme (scheme.length + run.length - 1) cs
    else matchSchemeAux scheme 0 cs

/-- The expression `s.match(/<scheme>[^\s<>"]+/g) || []`. -/
def matchScheme (scheme : List Char) (s : List Char) : List (List Char) :=
  matchSchemeAux scheme 0 s

/-- The function `filterNodes`. -/
def filterNodes (nodes : List (List Char)) : List (List Char) :=
  nodes.filter (fun node => vmessScheme.isPrefixOf node || hysteria2Scheme.isPrefixOf node)

/-- Outcome of `axios.get(nodeUrl)`: failure, or the value `nodeResponse.data`. -/
inductive NodeProbe where
  | failed
  | ok (data : JsVal)
  deriving DecidableEq, Repr

/-- Lines 40-45: `nodeLinks`; a `nodeData` that is not a string has no `match` method. -/
def nodeLinks : NodeProbe → Except JsError (List (List Char))
  | .failed => .error .requestFailed
  | .ok (.str nodeData) =>
    .ok (filterNodes (matchScheme vmessScheme nodeData ++ matchScheme hysteria2Scheme nodeData))
  | .ok _ => .error .typeError

/-- The payload of the `nodesSummary` event. -/
structure NodesSummary where
  successfulNodes : List (List Char)
  failedAccounts : List (List Char)
  deriving DecidableEq, Repr

/-- One iteration of the loop of `getNodesSummary`. -/
def nodesStep (probe : List Char → NodeProbe) (acc : NodesSummary) (user : List Char) :
    NodesSummary :=
  match nodeLinks (probe user) with
  | .ok links =>
    if links.length > 0 then { acc with successfulNodes := acc.successfulNodes ++ links }
    else { acc with failedAccounts := acc.failedAccounts ++ [user] }
  | .error _ => { acc with failedAccounts := acc.failedAccounts ++ [user] }

/-- The function `getNodesSummary`: the payload it emits. -/
def getNodesSummary (mainUser : List Char) (file : Option (List (List Char × Account)))
    (probe : List Char → NodeProbe) : NodesSummary :=
  let accounts := getAccounts mainUser file true
  let users := objectKeys accounts
  users.foldl (nodesStep probe) { successfulNodes := [], failedAccounts := [] }

/-- All matches of the two node patterns in a response: none for a failed probe or a
body that is not a string. -/
def probeMatches : NodeProbe → List (List Char)
  | .ok (.str nodeData) => matchScheme vmessScheme nodeData ++ matchScheme hysteria2Scheme nodeData
  | _ => []

/-- A response body contains a node link: a string with an occurrence of one of the
two schemes followed by at least one character of the class `[^\s<>"]`. -/
def ContainsNodeLink (data : JsVal) : Prop :=
  ∃ (scheme pre rest : List Char) (c : Char),
    (scheme = vmessScheme ∨ scheme = hysteria2Scheme) ∧ nodeChar c = true ∧
    data = .str (pre ++ scheme ++ c :: rest)

/-! ## Numbers -/

/-- The Number values that `parseInt` returns: `NaN`, an infinity, or a finite
integer-valued double (`-0` is identified with `0`: both print as `0` and compare
alike). -/
inductive JsNum where
  | nan
  | inf (negative : Bool)
  | fin (v : Int)
  deriving DecidableEq, Repr

/-- Number of binary digits of `n`, with `fuel` bounding the recursion. -/
def bitLengthAux : Nat → Nat → Nat
  | 0, _ => 0
  | fuel + 1, n => if n = 0 then 0 else bitLengthAux fuel (n / 2) + 1

/-- Number of binary digits of `n`: the least `b` with `n < 2 ^ b`. -/
def bitLength (n : Nat) : Nat := bitLengthAux n n

/-- Round a natural number to the nearest double (53 significant bits), ties to
even; `none` when the result overflows to `Infinity` (it needs more than 1024
bits). -/
def roundToDouble (n : Nat) : Option Nat :=
  if n < 2 ^ 53 then some n
  else
    let e := bitLength n - 53
    let q := n / 2 ^ e
    let r := n % 2 ^ e
    let half := 2 ^ (e - 1)
    let q1 := if r > half || (r == half && q % 2 == 1) then q + 1 else q
    let v := q1 * 2 ^ e
    if bitLength v ≤ 1024 then some v else none

def digitChar (d : Nat) : Char := Char.ofNat (48 + d)

/-- Decimal numeral of `n`, with `fuel` bounding the number of digits. -/
def decimalAux : Nat → Nat → List Char
  | 0, _ => []
  | fuel + 1, n =>
    if n < 10 then [digitChar n] else decimalAux fuel (n / 10) ++ [digitChar (n % 10)]

/-- The decimal numeral of a natural number, without leading zeros. -/
def decimal (n : Nat) : List Char := decimalAux (n + 1) n

/-- A decimal numeral of `n` with `zeros` leading zeros. -/
def numeral (zeros n : Nat) : List Char := List.replicate zeros '0' ++ decimal n

/-- Number of decimal digits of a positive number. -/
def digitCount (n : Nat) : Nat := (decimal n).length

/-- Candidates `s` for the digits of `x` with `k` digits at scale `10 ^ (n - k)`:
those in range whose scaled value reads back as `x`, nearest to `x` first. -/
def digitCandidates (x n k : Nat) : List Nat :=
  let p := 10 ^ (n - k)
  let ok := fun s => 10 ^ (k - 1) ≤ s && s < 10 ^ k && roundToDouble (s * p) == some x
  let lo := x / p
  let near := if 2 * (x - lo * p) < p || (2 * (x - lo * p) == p && lo % 2 == 0)
    then [lo, lo + 1] else [lo + 1, lo]
  near.filter ok

/-- The triple `(n, k, s)` of Number::toString for a positive integer-valued double
`x`: `k` is as small as possible with `10 ^ (k - 1) ≤ s < 10 ^ k` and
`s * 10 ^ (n - k)` reading back as `x`. -/
def shortestDigits (x : Nat) : Nat × Nat × Nat :=
  let d := digitCount x
  let tries := (List.range d).flatMap (fun i =>
    let k := i + 1
    ((if k = 1 then [d, d + 1] else [d]).flatMap (fun n =>
      (digitCandidates x n k).map (fun s => (n, k, s)))))
  tries.headD (d, d, x)

/-- Number::toString (radix 10) of a positive integer-valued double.  Up to `2 ^ 53`
every integer is a double, so the shortest digit string reading back as `x` is the
decimal numeral of `x`. -/
def natToString (x : Nat) : List Char :=
  if x ≤ 2 ^ 53 then decimal x
  else
    let (n, k, s) := shortestDigits x
    if n ≤ 21 then decimal s ++ List.replicate (n - k) '0'
    else
      match decimal s with
      | [] => []
      | c :: cs =>
        (if cs.isEmpty then [c] else c :: '.' :: cs) ++ "e+".toList ++ decimal (n - 1)

/-- ToString of a `JsNum`, as in a template literal. -/
def JsNum.toJsString : JsNum → List Char
  | .nan => "NaN".toList
  | .inf false => "Infinity".toList
  | .inf true => "-Infinity".toList
  | .fin v => if v < 0 then '-' :: natToString v.natAbs else natToString v.natAbs

/-- The global function `isNaN` (`none` is the value `undefined`). -/
def isNaN : Option JsNum → Bool
  | none => true
  | some .nan => true
  | some _ => false

def isDigit (c : Char) : Bool := '0' ≤ c && c ≤ '9'

/-- Value of a string of decimal digits. -/
def digitsValue (z : List Char) : Nat := z.foldl (fun a c => 10 * a + (c.toNat - 48)) 0

/-- The call `parseInt(s, 10)` on a string. -/
def parseInt (s : List Char) : JsNum :=
  let t := s.dropWhile isJsWhiteSpace
  let negative := t.head? == some '-'
  let u := if t.head? == some '-' || t.head? == some '+' then t.tail else t
  let z := u.takeWhile isDigit
  if z.isEmpty then .nan
  else
    match roundToDouble (digitsValue z) with
    | none => .inf negative
    | some v => .fin (if negative then -(v : Int) else v)

/-- The string `s` consists of white space, an optional sign (`negative` for `-`), the
non-empty digit string `digits`, and a rest that does not start with a digit. -/
def LeadingNumeral (s : List Char) (negative : Bool) (digits : List Char) : Prop :=
  ∃ (ws sign rest : List Char),
    s = ws ++ sign ++ digits ++ rest ∧ (∀ c ∈ ws, isJsWhiteSpace c = true) ∧
    (sign = [] ∧ negative = false ∨ sign = ['+'] ∧ negative = false ∨
      sign = ['-'] ∧ negative = true) ∧
    digits ≠ [] ∧ (∀ c ∈ digits, isDigit c = true) ∧
    (∀ c, rest.head? = some c → isDigit c = false)

/-- The string `s` starts with a decimal numeral in the sense of `LeadingNumeral`. -/
def IsNumeric (s : List Char) : Prop := ∃ negative digits, LeadingNumeral s negative digits

/-! ## Schedules -/

/-- The table `weekDays`. -/
def weekDays : List (List Char × Nat) :=
  [("周日".toList, 0), ("周一".toList, 1), ("周二".toList, 2), ("周三".toList, 3),
   ("周四".toList, 4), ("周五".toList, 5), ("周六".toList, 6)]

/-- The pair `[hour, minute]` destructured from
`time.split(":").map(num => parseInt(num, 10))`; `none` is `undefined`. -/
def hourMinute (time : List Char) : Option JsNum × Option JsNum :=
  let parts := (splitOn ':' time).map parseInt
  (parts.head?, parts.tail.head?)

/-- The function `getCronExpression`; `.ok none` is the result `null`. -/
def getCronExpression (scheduleType timeValue : List Char) :
    Except JsError (Option (List Char)) :=
  if scheduleType = "interval".toList then
    let minutes := parseInt timeValue
    if isNaN (some minutes) ||
        (match minutes with
          | .nan => false
          | .inf negative => negative
          | .fin v => decide (v ≤ 0)) then .ok none
    else .ok (some ("*/".toList ++ minutes.toJsString ++ " * * * *".toList))
  else if scheduleType = "daily".toList then
    match hourMinute timeValue with
    | (some hour, some minute) =>
      if isNaN (some hour) || isNaN (some minute) then .ok none
      else .ok (some (minute.toJsString ++ " ".toList ++ hour.toJsString ++ " * * *".toList))
    | _ => .ok none
  else if scheduleType = "weekly".toList then
    let parts := splitOn '-' timeValue
    let day := parts.head?.getD []
    match parts.tail.head? with
    | none => .error .typeError
    | some time =>
      match getProp weekDays day, hourMinute time with
      | some d, (some hour, some minute) =>
        if isNaN (some hour) || isNaN (some minute) then .ok none
        else .ok (some (minute.toJsString ++ " ".toList ++ hour.toJsString ++
          " * * ".toList ++ decimal d))
      | _, _ => .ok none
  else .ok none

/-! ## Scheduler state and the settings handlers -/

/-- The contents of `settings.json` and of the settings request bodies; `none` is
an absent field. -/
structure Settings where
  telegramToken : Option (List Char)
  telegramChatId : Option (List Char)
  scheduleType : Option (List Char)
  timeValue : Option (List Char)
  deriving DecidableEq, Repr

/-- The test `!x` on an optional string field. -/
def missing (field : Option (List Char)) : Bool := (field.getD []).isEmpty

/-- A task created by `cron.schedule`. -/
structure Job where
  expression : List Char
  running : Bool
  deriving DecidableEq, Repr

/-- The mutable state around the scheduler: every task created so far (in order of
creation), the variable `cronJob` (an index into `jobs`, `none` for `null`) and the
file `settings.json` (`none` when it does not exist). -/
structure State where
  jobs : List Job
  cronJob : Option Nat
  settingsFile : Option Settings
  deriving DecidableEq, Repr

/-- The function `getNotificationSettings`. -/
def getNotificationSettings (st : State) : Settings :=
  st.settingsFile.getD
    { telegramToken := none, telegramChatId := none, scheduleType := none, timeValue := none }

/-- The function `saveNotificationSettings`. -/
def saveNotificationSettings (st : State) (settings : Settings) : State :=
  { st with settingsFile := some settings }

/-- The call `cronJob.stop()`. -/
def stopJob (jobs : List Job) (i : Nat) : List Job :=
  jobs.modify (fun j => { j with running := false }) i

/-- Line 113, `if (cronJob) cronJob.stop();`: the state after it. -/
def stopped (st : State) : State :=
  match st.cronJob with
  | some i => { st with jobs := stopJob st.jobs i }
  | none => st

/-- Lines 120-123, `cronJob = cron.schedule(...)` on an accepted expression: a new
running task, held in `cronJob`. -/
def install (st : State) (cronExpression : List Char) : State :=
  { st with
    jobs := st.jobs ++ [{ expression := cronExpression, running := true }],
    cronJob := some st.jobs.length }

/-- The function `resetCronJob`.  `cronValid` is node-cron's validation of an
expression: `cron.schedule` raises on an expression it does not accept, and
otherwise creates a running task. -/
def resetCronJob (cronValid : List Char → Bool) (st : State) : State × Except JsError Unit :=
  let st1 := stopped st
  let settings := getNotificationSettings st1
  if missing settings.scheduleType || missing settings.timeValue then (st1, .ok ())
  else
    match getCronExpression (settings.scheduleType.getD []) (settings.timeValue.getD []) with
    | .error e => (st1, .error e)
    | .ok none => (st1, .ok ())
    | .ok (some cronExpression) =>
      if cronExpression.isEmpty then (st1, .ok ())
      else if cronValid cronExpression then
        (install st1 cronExpression, .ok ())
      else (st1, .error .invalidCron)

/-- The handler of POST /setNotificationSettings: the state it leaves and the HTTP
status of its answer (500 when the handler raises). -/
def setNotificationSettings (cronValid : List Char → Bool) (st : State) (body : Settings) :
    State × Nat :=
  if missing body.telegramToken || missing body.telegramChatId ||
      missing body.scheduleType || missing body.timeValue then (st, 400)
  else
    match getCronExpression (body.scheduleType.getD []) (body.timeValue.getD []) with
    | .error _ => (st, 500)
    | .ok none => (st, 400)
    | .ok (some cronExpression) =>
      if cronExpression.isEmpty then (st, 400)
      else
        let st1 := saveNotificationSettings st body
        match resetCronJob cronValid st1 with
        | (st2, .ok _) => (st2, 200)
        | (st2, .error _) => (st2, 500)

/-- The handler of POST /setTelegramSettings. -/
def setTelegramSettings (st : State) (body : Settings) : State × Nat :=
  if missing body.telegramToken || missing body.telegramChatId then (st, 400)
  else
    let settings : Settings :=
      { telegramToken := body.telegramToken, telegramChatId := body.telegramChatId,
        scheduleType := none, timeValue := none }
    ({ st with settingsFile := some settings }, 200)

/-- A request or call that touches the scheduler state. -/
inductive Action where
  | reset
  | notificationSettings (body : Settings)
  | telegramSettings (body : Settings)
  deriving DecidableEq, Repr

/-- The state after one action. -/
def step (cronValid : List Char → Bool) (st : State) : Action → State
  | .reset => (resetCronJob cronValid st).1
  | .notificationSettings body => (setNotificationSettings cronValid st body).1
  | .telegramSettings body => (setTelegramSettings st body).1

/-- Process start: `cronJob = null`, no task, and the call `resetCronJob()` of line
278 on whatever `settings.json` holds. -/
def start (cronValid : List Char → Bool) (file : Option Settings) : State :=
  (resetCronJob cronValid { jobs := [], cronJob := none, settingsFile := file }).1

/-- The state reached from process start by a sequence of actions. -/
def run (cronValid : List Char → Bool) (file : Option Settings) (actions : List Action) :
    State :=
  actions.foldl (step cronValid) (start cronValid file)

/-- The tasks that are live. -/
def liveJobs (st : State) : List Job := st.jobs.filter (fun j => j.running)

/-- The task held in the variable `cronJob`. -/
def heldJob (st : State) : Option Job := st.cronJob.bind (fun i => st.jobs[i]?)

/-- Invariant of the scheduler: a task that is live is the one held in `cronJob`. -/
def Inv (st : State) : Prop :=
  ∀ (i : Nat) (j : Job), st.jobs[i]? = some j → j.running = true → st.cronJob = some i

/-! ## Telegram report -/

/-- The property `String.prototype.length`: the number of UTF-16 code units. -/
def utf16Length (s : List Char) : Nat :=
  (s.map (fun c => if c.toNat < 0x10000 then 1 else 2)).sum

/-- The call `s.padEnd(n, " ")`. -/
def padEnd (s : List Char) (n : Nat) : List Char :=
  s ++ List.replicate (n - utf16Length s) ' '

/-- ToString of a value in a template literal: a plain object, whatever its
properties, gives `[object Object]`. -/
def JsVal.toJsString : JsVal → List Char
  | .undefined => "undefined".toList
  | .null => "null".toList
  | .bool b => if b then "true".toList else "false".toList
  | .num n => (JsNum.fin n).toJsString
  | .str s => s
  | .entry _ _ => "[object Object]".toList
  | .object => "[object Object]".toList

/-- An entry of `results` as it arrives in `response.data.results`. -/
def Entry.toJs (e : Entry) : JsVal := .entry e.status e.season

/-- Lines 160-164: the length of the longest identifier. -/
def maxUserLength (data : List (List Char × JsVal)) : Nat :=
  (objectKeys data).foldl (fun m user => max m (utf16Length user)) 0

/-- Line 168: the row pushed for `user` at position `index`. -/
def renderRow (data : List (List Char × JsVal)) (width index : Nat) (user : List Char) :
    List Char :=
  decimal (index + 1) ++ ". ".toList ++ padEnd user width ++ ": ".toList ++
    (jsOr ((getProp data user).getD .undefined) (.str unknownStatus)).toJsString

/-- Lines 159-169 of `sendCheckResultsToTG`: the array `results`, for a report `data`
listed in the order `Object.keys` iterates it. -/
def renderRows (data : List (List Char × JsVal)) : List (List Char) :=
  (objectKeys data).enum.map (fun p => renderRow data (maxUserLength data) p.1 p.2)

/-! ## Cron step semantics -/

/-- Modelled from the spec: node-cron is not part of the repository; the minute field
`*/m` fires at each minute whose minute-of-hour `k` in `0..59` satisfies
`k mod m = 0`.  `t` counts minutes from the start of some hour. -/
def stepFires (m t : Nat) : Bool := (t % 60) % m == 0

/-- Two firing times with no firing in between. -/
def Consecutive (m t1 t2 : Nat) : Prop :=
  t1 < t2 ∧ stepFires m t1 = true ∧ stepFires m t2 = true ∧
    ∀ t, t1 < t → t < t2 → stepFires m t = false

/-! ## Scenario data -/

/-- The store of the scenario of the spec: `{alice: {}, bob: {}}`. -/
def aliceBob : List (List Char × Account) :=
  [("alice".toList, { season := .undefined }), ("bob".toList, { season := .undefined })]

/-- The probes of the scenario: alice answers `状态：正常`, bob times out. -/
def aliceBobProbe (username : List Char) : Probe :=
  if username = "alice".toList then .ok (.withMessage (.str "状态：正常".toList)) else .failed

/-- A state with one live trigger and stored settings without a schedule, as left by
POST /setNotificationSettings (every 5 minutes) followed by POST /setTelegramSettings. -/
def liveState : State :=
  { jobs := [{ expression := "*/5 * * * *".toList, running := true }],
    cronJob := some 0,
    settingsFile := some
      { telegramToken := some "token".toList, telegramChatId := some "chat".toList,
        scheduleType := none, timeValue := none } }

/-- A complete request body with the given schedule. -/
def scheduleBody (scheduleType timeValue : List Char) : Settings :=
  { telegramToken := some "token".toList, telegramChatId := some "chat".toList,
    scheduleType := some scheduleType, timeValue := some timeValue }

/-- Three accounts for node discovery: `a` serves two links, `b` serves a page without
a link, and the probe of `c` fails. -/
def nodeStore : List (List Char × Account) :=
  [("a".toList, { season := .undefined }), ("b".toList, { season := .undefined }),
   ("c".toList, { season := .undefined })]

/-- The probes of the three accounts of `nodeStore`. -/
def nodeStoreProbe (user : List Char) : NodeProbe :=
  if user = "a".toList then
    .ok (.str "<p>vmess://abc</p> hysteria2://h@x:1?q=2#n vmess:// ".toList)
  else if user = "b".toList then .ok (.str "<html>no nodes</html>".toList)
  else .failed

end Serv00

namespace Serv00

/-! ## Lemmas on dictionaries -/

theorem objectKeys_setProp {V : Type} (o : List (List Char × V)) (k : List Char) (v : V)
    (hk : k ≠ protoKey) (hnew : k ∉ objectKeys o) : setProp o k v = o ++ [(k, v)] := by
  simp [setProp, hk, hnew]

theorem setProp_protoKey {V : Type} (o : List (List Char × V)) (v : V) :
    setProp o protoKey v = o := by
  simp [setProp]

theorem foldl_setProp_fresh {V : Type} (g : List Char → V) (order : List (List Char)) :
    ∀ (acc : List (List Char × V)), order.Nodup →
      (∀ u ∈ order, u ∉ objectKeys acc) →
      order.foldl (fun results u => setProp results u (g u)) acc
        = acc ++ (order.filter (fun u => u ≠ protoKey)).map (fun u => (u, g u)) := by
  induction order with
  | nil => intro acc _ _; simp
  | cons u us ih =>
    intro acc hnd hfresh
    have hnd' := List.nodup_cons.mp hnd
    by_cases hu : u = protoKey
    · rw [List.foldl_cons, hu, setProp_protoKey,
        ih acc hnd'.2 (fun w hw => hfresh w (List.mem_cons_of_mem _ hw))]
      simp [List.filter_cons]
    · rw [List.foldl_cons, objectKeys_setProp acc u (g u) hu (hfresh u (by simp))]
      rw [ih _ hnd'.2]
      · simp [List.filter_cons, hu]
      · intro w hw hmem
        simp only [objectKeys, List.map_append, List.map_cons, List.map_nil, List.mem_append,
          List.mem_singleton] at hmem
        rcases hmem with hmem | hmem
        · exact hfresh w (List.mem_cons_of_mem _ hw) hmem
        · rw [hmem] at hw; exact hnd'.1 hw

theorem checkAccountsResults_eq (accounts : List (List Char × Account))
    (probe : List Char → Probe) (order : List (List Char)) (hnd : order.Nodup) :
    checkAccountsResults accounts probe order
      = (order.filter (fun u => u ≠ protoKey)).map
          (fun u => (u, entryFor accounts probe u)) := by
  unfold checkAccountsResults
  rw [foldl_setProp_fresh (entryFor accounts probe) order [] hnd (by simp [objectKeys])]
  simp

theorem objectKeys_getAccounts (mainUser : List Char)
    (file : Option (List (List Char × Account))) :
    objectKeys (getAccounts mainUser file true)
      = (objectKeys (file.getD [])).filter (fun k => k ≠ mainUser) := by
  cases file with
  | none => simp [getAccounts, objectKeys]
  | some accounts =>
    simp only [getAccounts, if_true, deleteProp, objectKeys, Option.getD_some, List.filter_map]
    rfl

theorem checkAccounts_eq (mainUser : List Char) (file : Option (List (List Char × Account)))
    (probe : List Char → Probe) (order : List (List Char))
    (hnd : (objectKeys (file.getD [])).Nodup)
    (horder : order.Perm (objectKeys (getAccounts mainUser file true))) :
    checkAccounts mainUser file probe order
      = (order.filter (fun u => u ≠ protoKey)).map
          (fun u => (u, entryFor (getAccounts mainUser file true) probe u)) := by
  have hnd' : order.Nodup := by
    rw [horder.nodup_iff, objectKeys_getAccounts]
    exact hnd.filter _
  unfold checkAccounts
  simp only
  split
  · rename_i h
    have : order = [] := by
      have := horder.length_eq
      rw [h] at this
      exact List.length_eq_zero.mp this
    simp [this]
  · exact checkAccountsResults_eq _ probe order hnd'

theorem objectKeys_checkAccounts (mainUser : List Char)
    (file : Option (List (List Char × Account)))
    (probe : List Char → Probe) (order : List (List Char))
    (hnd : (objectKeys (file.getD [])).Nodup)
    (horder : order.Perm (objectKeys (getAccounts mainUser file true))) :
    objectKeys (checkAccounts mainUser file probe order)
      = order.filter (fun u => u ≠ protoKey) := by
  rw [checkAccounts_eq mainUser file probe order hnd horder]
  simp [objectKeys, Function.comp_def]

theorem getProp_map_self {V : Type} (g : List Char → V) (u : List Char) :
    ∀ (order : List (List Char)), u ∈ order →
      getProp (order.map (fun w => (w, g w))) u = some (g u) := by
  intro order
  induction order with
  | nil => intro h; simp at h
  | cons w ws ih =>
    intro h
    by_cases hw : w = u
    · simp [getProp, hw]
    · have hmem : u ∈ ws := by
        rcases List.mem_cons.mp h with h1 | h1
        · exact absurd h1.symm hw
        · exact h1
      have := ih hmem
      unfold getProp at this ⊢
      rw [List.map_cons, List.find?_cons_of_neg _ (by simpa using hw)]
      exact this

/-! ## Lemmas on `split` -/

theorem splitOn_ne_nil (sep : Char) (s : List Char) : splitOn sep s ≠ [] := by
  cases s with
  | nil => simp [splitOn]
  | cons c cs =>
    unfold splitOn
    split
    · simp
    · split <;> simp

theorem splitOn_of_not_mem (sep : Char) :
    ∀ (s : List Char), sep ∉ s → splitOn sep s = [s] := by
  intro s
  induction s with
  | nil => intro _; rfl
  | cons c cs ih =>
    intro h
    have hc : c ≠ sep := fun e => h (by simp [e])
    have hcs : sep ∉ cs := fun e => h (List.mem_cons_of_mem _ e)
    simp [splitOn, hc, ih hcs]

theorem splitOn_of_mem (sep : Char) :
    ∀ (s : List Char), sep ∈ s →
      1 < (splitOn sep s).length ∧
      ∃ pre post, s = pre ++ sep :: post ∧ sep ∉ post ∧
        (splitOn sep s).getLast? = some post := by
  intro s
  induction s with
  | nil => intro h; simp at h
  | cons c cs ih =>
    intro h
    by_cases hc : c = sep
    · subst hc
      by_cases hcs : c ∈ cs
      · obtain ⟨hlen, pre, post, hs, hpost, hlast⟩ := ih hcs
        cases hq : splitOn c cs with
        | nil => exact absurd hq (splitOn_ne_nil c cs)
        | cons p ps =>
          rw [hq] at hlast
          refine ⟨by simp [splitOn, hq], c :: pre, post, by simp [hs], hpost, ?_⟩
          simp only [splitOn, if_true, hq, List.getLast?_cons_cons]
          exact hlast
      · refine ⟨by simp [splitOn, splitOn_of_not_mem c cs hcs], [], cs, by simp, hcs, ?_⟩
        simp [splitOn, splitOn_of_not_mem c cs hcs]
    · have hcs : sep ∈ cs := by
        rcases List.mem_cons.mp h with h1 | h1
        · exact absurd h1.symm hc
        · exact h1
      obtain ⟨hlen, pre, post, hs, hpost, hlast⟩ := ih hcs
      cases hq : splitOn sep cs with
      | nil => exact absurd hq (splitOn_ne_nil sep cs)
      | cons p ps =>
        rw [hq] at hlast hlen
        cases ps with
        | nil => simp at hlen
        | cons p2 ps2 =>
          refine ⟨by simp [splitOn, hc, hq], c :: pre, post, by simp [hs], hpost, ?_⟩
          simp only [splitOn, if_neg hc, hq, List.getLast?_cons_cons]
          simpa using hlast

/-! ## GET /checkAccounts -/

/-- C1 (amended): for every account store with unique identifiers, every probe outcome
per account and every completion order of the probes, if no identifier other than
MAIN_SERVER_USER is `__proto__`, the keys of `results` are exactly the identifiers of
the store minus MAIN_SERVER_USER, each once. -/
theorem checkAccounts_keys (mainUser : List Char)
    (file : Option (List (List Char × Account))) (probe : List Char → Probe)
    (order : List (List Char))
    (hnd : (objectKeys (file.getD [])).Nodup)
    (horder : order.Perm (objectKeys (getAccounts mainUser file true)))
    (hproto : protoKey ∉ objectKeys (getAccounts mainUser file true)) :
    (objectKeys (checkAccounts mainUser file probe order)).Perm
        ((objectKeys (file.getD [])).filter (fun k => k ≠ mainUser)) ∧
      (objectKeys (checkAccounts mainUser file probe order)).Nodup := by
  have hkeys : objectKeys (checkAccounts mainUser file probe order) = order := by
    rw [objectKeys_checkAccounts mainUser file probe order hnd horder, List.filter_eq_self]
    intro u hu
    have : u ≠ protoKey := fun h => hproto (horder.mem_iff.mp (h ▸ hu))
    simpa using this
  rw [hkeys, ← objectKeys_getAccounts]
  refine ⟨horder, ?_⟩
  rw [horder.nodup_iff, objectKeys_getAccounts]
  exact hnd.filter _

/-- The key set of `results` in general: the identifiers of the store minus
MAIN_SERVER_USER and minus `__proto__`, each once. -/
theorem checkAccounts_keys_general (mainUser : List Char)
    (file : Option (List (List Char × Account))) (probe : List Char → Probe)
    (order : List (List Char))
    (hnd : (objectKeys (file.getD [])).Nodup)
    (horder : order.Perm (objectKeys (getAccounts mainUser file true))) :
    (objectKeys (checkAccounts mainUser file probe order)).Perm
        (((objectKeys (file.getD [])).filter (fun k => k ≠ mainUser)).filter
          (fun k => k ≠ protoKey)) ∧
      (objectKeys (checkAccounts mainUser file probe order)).Nodup := by
  rw [objectKeys_checkAccounts mainUser file probe order hnd horder, ← objectKeys_getAccounts]
  refine ⟨horder.filter _, List.Nodup.filter _ ?_⟩
  rw [horder.nodup_iff, objectKeys_getAccounts]
  exact hnd.filter _

theorem checkAccounts_keys_witness :
    (objectKeys (checkAccounts "root".toList (some aliceBob) aliceBobProbe
        ["bob".toList, "alice".toList])).Perm
        ((objectKeys ((some aliceBob).getD [])).filter (fun k => k ≠ "root".toList)) ∧
      (objectKeys (checkAccounts "root".toList (some aliceBob) aliceBobProbe
        ["bob".toList, "alice".toList])).Nodup :=
  checkAccounts_keys "root".toList (some aliceBob) aliceBobProbe ["bob".toList, "alice".toList]
    (by decide) (by decide) (by decide)

/-- C1 (as stated) fails: in the store `{"__proto__": {}}` the account `__proto__`
is not the main user, yet `results` has no key for it. -/
theorem checkAccounts_keys_counterexample :
    (objectKeys [(protoKey, ({ season := .undefined } : Account))]).Nodup ∧
    objectKeys (getAccounts "root".toList
      (some [(protoKey, { season := .undefined })]) true) = [protoKey] ∧
    objectKeys (checkAccounts "root".toList (some [(protoKey, { season := .undefined })])
      (fun _ => .failed) [protoKey]) = [] := by
  decide

/-- The scenario of the spec: the answer for `{alice: {}, bob: {}}`. -/
theorem checkAccounts_scenario :
    checkAccounts "root".toList (some aliceBob) aliceBobProbe ["alice".toList, "bob".toList]
      = [("alice".toList, { status := "正常".toList, season := .str "--".toList }),
         ("bob".toList, { status := "检测失败".toList, season := .str "--".toList })] := by
  decide

/-- C2 (amended): for a successful probe whose `message` is a non-empty string, the
status recorded for the account (any account of the store but one named `__proto__`)
is the part of `message` after the last delimiter when there is one, and `message`
itself otherwise. -/
theorem checkAccounts_status (mainUser : List Char)
    (file : Option (List (List Char × Account))) (probe : List Char → Probe)
    (order : List (List Char)) (username message : List Char)
    (hnd : (objectKeys (file.getD [])).Nodup)
    (horder : order.Perm (objectKeys (getAccounts mainUser file true)))
    (huser : username ∈ objectKeys (getAccounts mainUser file true))
    (hproto : username ≠ protoKey)
    (hprobe : probe username = .ok (.withMessage (.str message)))
    (hmessage : message ≠ []) :
    ∃ entry, getProp (checkAccounts mainUser file probe order) username = some entry ∧
      (delimiter ∈ message →
        ∃ pre, message = pre ++ delimiter :: entry.status ∧ delimiter ∉ entry.status) ∧
      (delimiter ∉ message → entry.status = message) := by
  refine ⟨entryFor (getAccounts mainUser file true) probe username, ?_, ?_, ?_⟩
  · rw [checkAccounts_eq mainUser file probe order hnd horder]
    apply getProp_map_self
    rw [List.mem_filter]
    exact ⟨horder.mem_iff.mpr huser, by simpa using hproto⟩
  · intro hmem
    obtain ⟨hlen, pre, post, hs, hpost, hlast⟩ := splitOn_of_mem delimiter message hmem
    refine ⟨pre, ?_⟩
    have hst : (entryFor (getAccounts mainUser file true) probe username).status = post := by
      cases message with
      | nil => exact absurd rfl hmessage
      | cons c cs =>
        simp [entryFor, hprobe, probeStatus, parseStatus, JsVal.truthy, hlen, hlast]
    rw [hst]
    exact ⟨hs, hpost⟩
  · intro hmem
    cases message with
    | nil => exact absurd rfl hmessage
    | cons c cs =>
      simp [entryFor, hprobe, probeStatus, parseStatus, JsVal.truthy,
        splitOn_of_not_mem delimiter _ hmem]

theorem checkAccounts_status_witness :
    ∃ entry, getProp (checkAccounts "root".toList (some aliceBob) aliceBobProbe
        ["bob".toList, "alice".toList]) "alice".toList = some entry ∧
      (delimiter ∈ "状态：正常".toList →
        ∃ pre, "状态：正常".toList = pre ++ delimiter :: entry.status ∧
          delimiter ∉ entry.status) ∧
      (delimiter ∉ "状态：正常".toList → entry.status = "状态：正常".toList) :=
  checkAccounts_status "root".toList (some aliceBob) aliceBobProbe
    ["bob".toList, "alice".toList] "alice".toList "状态：正常".toList
    (by decide) (by decide) (by decide) (by decide) (by decide) (by decide)

/-- C2 (as stated) fails: the empty string is a `message` without delimiter, and the
status recorded is `未知状态`, not the message. -/
theorem checkAccounts_status_counterexample :
    delimiter ∉ ([] : List Char) ∧
    getProp (checkAccounts "root".toList (some aliceBob)
        (fun _ => .ok (.withMessage (.str []))) ["alice".toList, "bob".toList]) "alice".toList
      = some { status := "未知状态".toList, season := .str "--".toList } := by
  decide

/-- The witness of the claim: the message `状态：正常` gives the status `正常`. -/
theorem parseStatus_example :
    parseStatus (.str "状态：正常".toList) = .ok "正常".toList := by
  decide

/-! ## Node discovery -/

theorem matchSchemeAux_form (scheme : List Char) :
    ∀ (s : List Char) (skip : Nat), ∀ m ∈ matchSchemeAux scheme skip s,
      ∃ run, m = scheme ++ run ∧ run ≠ [] ∧ ∀ c ∈ run, nodeChar c = true := by
  intro s
  induction s with
  | nil => intro skip m hm; simp [matchSchemeAux] at hm
  | cons c cs ih =>
    intro skip m hm
    cases skip with
    | succ k => exact ih k m (by simpa [matchSchemeAux] using hm)
    | zero =>
      rw [matchSchemeAux] at hm
      split at hm
      · rename_i hcond
        rcases List.mem_cons.mp hm with h1 | h1
        · refine ⟨_, h1, ?_, ?_⟩
          · have : 0 < (List.takeWhile nodeChar (List.drop scheme.length (c :: cs))).length := by
              rw [Bool.and_eq_true] at hcond
              simpa using hcond.2
            exact List.ne_nil_of_length_pos this
          · intro x hx
            exact (List.mem_takeWhile_imp hx)
        · exact ih _ m h1
      · exact ih 0 m hm

theorem matchSchemeAux_eq_nil (scheme : List Char) :
    ∀ (s : List Char), matchSchemeAux scheme 0 s = [] ↔
      ¬ ∃ (pre rest : List Char) (c : Char), nodeChar c = true ∧ s = pre ++ scheme ++ c :: rest := by
  intro s
  induction s with
  | nil =>
    simp only [matchSchemeAux, true_iff]
    rintro ⟨pre, rest, c, _, h⟩
    simp at h
  | cons a as ih =>
    rw [matchSchemeAux]
    split
    · rename_i hcond
      simp only [List.cons_ne_nil, false_iff, not_not] at *
      rw [Bool.and_eq_true] at hcond
      obtain ⟨hpre, hrun⟩ := hcond
      have hpre' : scheme <+: (a :: as) := List.isPrefixOf_iff_prefix.mp hpre
      have hdrop : a :: as = scheme ++ (a :: as).drop scheme.length := by
        obtain ⟨t, ht⟩ := hpre'
        rw [← ht]; simp
      have hrun' : 0 < (List.takeWhile nodeChar (List.drop scheme.length (a :: as))).length := by
        simpa using hrun
      cases hq : List.drop scheme.length (a :: as) with
      | nil => rw [hq] at hrun'; simp at hrun'
      | cons x xs =>
        rw [hq] at hrun' hdrop
        have hx : nodeChar x = true := by
          by_contra hne
          simp [List.takeWhile_cons, hne] at hrun'
        exact ⟨[], xs, x, hx, by simpa using hdrop⟩
    · rename_i hcond
      rw [ih]
      constructor
      · rintro hno ⟨pre, rest, c, hc, hs⟩
        cases pre with
        | nil =>
          apply hcond
          rw [Bool.and_eq_true]
          have hpre : scheme <+: (a :: as) := ⟨c :: rest, by simpa using hs.symm⟩
          refine ⟨List.isPrefixOf_iff_prefix.mpr hpre, ?_⟩
          have : List.drop scheme.length (a :: as) = c :: rest := by
            rw [hs]; simp
          simp [this, List.takeWhile_cons, hc]
        | cons p ps =>
          simp only [List.cons_append, List.cons.injEq] at hs
          exact hno ⟨ps, rest, c, hc, hs.2⟩
      · rintro hno ⟨pre, rest, c, hc, hs⟩
        exact hno ⟨a :: pre, rest, c, hc, by simp [hs]⟩

theorem filterNodes_matches (s : List Char) :
    filterNodes (matchScheme vmessScheme s ++ matchScheme hysteria2Scheme s)
      = matchScheme vmessScheme s ++ matchScheme hysteria2Scheme s := by
  unfold filterNodes
  rw [List.filter_eq_self]
  intro m hm
  rcases List.mem_append.mp hm with h | h
  · obtain ⟨run, hrun, _, _⟩ := matchSchemeAux_form vmessScheme s 0 m h
    have : vmessScheme <+: m := ⟨run, hrun.symm⟩
    simp [List.isPrefixOf_iff_prefix.mpr this]
  · obtain ⟨run, hrun, _, _⟩ := matchSchemeAux_form hysteria2Scheme s 0 m h
    have : hysteria2Scheme <+: m := ⟨run, hrun.symm⟩
    simp [List.isPrefixOf_iff_prefix.mpr this]

theorem nodeLinks_eq (p : NodeProbe) :
    (∃ links, nodeLinks p = .ok links ∧ links = probeMatches p) ∨
      (∃ e, nodeLinks p = .error e ∧ probeMatches p = []) := by
  cases p with
  | failed => exact Or.inr ⟨_, rfl, rfl⟩
  | ok d =>
    cases d with
    | str s => exact Or.inl ⟨_, rfl, filterNodes_matches s⟩
    | undefined => exact Or.inr ⟨_, rfl, rfl⟩
    | null => exact Or.inr ⟨_, rfl, rfl⟩
    | bool b => exact Or.inr ⟨_, rfl, rfl⟩
    | num n => exact Or.inr ⟨_, rfl, rfl⟩
    | entry s e => exact Or.inr ⟨_, rfl, rfl⟩
    | object => exact Or.inr ⟨_, rfl, rfl⟩

theorem nodesStep_eq (probe : List Char → NodeProbe) (acc : NodesSummary) (user : List Char) :
    nodesStep probe acc user =
      { successfulNodes := acc.successfulNodes ++ probeMatches (probe user),
        failedAccounts := acc.failedAccounts ++
          (if probeMatches (probe user) = [] then [user] else []) } := by
  unfold nodesStep
  rcases nodeLinks_eq (probe user) with ⟨links, h1, h2⟩ | ⟨e, h1, h2⟩
  · rw [h1, ← h2]
    cases links with
    | nil => simp
    | cons l ls => simp
  · rw [h1, h2]; simp

theorem foldl_nodesStep (probe : List Char → NodeProbe) (users : List (List Char)) :
    ∀ (acc : NodesSummary), users.foldl (nodesStep probe) acc =
      { successfulNodes := acc.successfulNodes ++ users.flatMap (fun u => probeMatches (probe u)),
        failedAccounts := acc.failedAccounts ++
          users.filter (fun u => probeMatches (probe u) = []) } := by
  induction users with
  | nil => intro acc; simp
  | cons u us ih =>
    intro acc
    rw [List.foldl_cons, ih, nodesStep_eq]
    by_cases h : probeMatches (probe u) = [] <;> simp [List.filter_cons, h]

theorem probeMatches_eq_nil (p : NodeProbe) :
    probeMatches p = [] ↔ (p = .failed ∨ ∃ d, p = .ok d ∧ ¬ ContainsNodeLink d) := by
  cases p with
  | failed => simp [probeMatches]
  | ok d =>
    have hstr : ∀ s, probeMatches (.ok (.str s)) = [] ↔ ¬ ContainsNodeLink (.str s) := by
      intro s
      simp only [probeMatches, matchScheme, List.append_eq_nil, matchSchemeAux_eq_nil]
      constructor
      · rintro ⟨h1, h2⟩ ⟨scheme, pre, rest, c, hsch, hc, hd⟩
        have hs : s = pre ++ scheme ++ c :: rest := by injection hd
        rcases hsch with rfl | rfl
        · exact h1 ⟨pre, rest, c, hc, hs⟩
        · exact h2 ⟨pre, rest, c, hc, hs⟩
      · intro h
        refine ⟨?_, ?_⟩
        · rintro ⟨pre, rest, c, hc, hs⟩
          exact h ⟨vmessScheme, pre, rest, c, Or.inl rfl, hc, by rw [hs]⟩
        · rintro ⟨pre, rest, c, hc, hs⟩
          exact h ⟨hysteria2Scheme, pre, rest, c, Or.inr rfl, hc, by rw [hs]⟩
    have hnot : ∀ d : JsVal, (∀ s, d ≠ .str s) → ¬ ContainsNodeLink d := by
      rintro d hd ⟨scheme, pre, rest, c, _, _, h⟩
      exact hd _ h
    cases d with
    | str s => simp [hstr]
    | undefined => simp [probeMatches, hnot]
    | null => simp [probeMatches, hnot]
    | bool b => simp [probeMatches, hnot]
    | num n => simp [probeMatches, hnot]
    | entry s e => simp [probeMatches, hnot]
    | object => simp [probeMatches, hnot]

/-- C3: `getNodesSummary` emits a partition.  An account is in `failedAccounts` if and
only if its probe failed or its response contains no node link; such an account
contributes nothing to `successfulNodes`; `successfulNodes` is made of all the matches
of every account, and an account with a node link has at least one match and is not in
`failedAccounts`. -/
theorem getNodesSummary_partition (mainUser : List Char)
    (file : Option (List (List Char × Account))) (probe : List Char → NodeProbe) :
    (∀ u, u ∈ (getNodesSummary mainUser file probe).failedAccounts ↔
      u ∈ objectKeys (getAccounts mainUser file true) ∧
        (probe u = .failed ∨ ∃ d, probe u = .ok d ∧ ¬ ContainsNodeLink d)) ∧
    (getNodesSummary mainUser file probe).successfulNodes =
      (objectKeys (getAccounts mainUser file true)).flatMap (fun u => probeMatches (probe u)) ∧
    (∀ u, (probe u = .failed ∨ ∃ d, probe u = .ok d ∧ ¬ ContainsNodeLink d) →
      probeMatches (probe u) = []) ∧
    (∀ u d, probe u = .ok d → ContainsNodeLink d →
      probeMatches (probe u) ≠ [] ∧
        u ∉ (getNodesSummary mainUser file probe).failedAccounts) := by
  have hsum : getNodesSummary mainUser file probe =
      { successfulNodes :=
          (objectKeys (getAccounts mainUser file true)).flatMap (fun u => probeMatches (probe u)),
        failedAccounts :=
          (objectKeys (getAccounts mainUser file true)).filter
            (fun u => probeMatches (probe u) = []) } := by
    unfold getNodesSummary
    simp only [foldl_nodesStep, List.nil_append]
  have hfail : ∀ u, u ∈ (getNodesSummary mainUser file probe).failedAccounts ↔
      u ∈ objectKeys (getAccounts mainUser file true) ∧
        (probe u = .failed ∨ ∃ d, probe u = .ok d ∧ ¬ ContainsNodeLink d) := by
    intro u
    rw [hsum]
    simp only [List.mem_filter, decide_eq_true_eq, probeMatches_eq_nil]
  refine ⟨hfail, by rw [hsum], fun u h => (probeMatches_eq_nil _).mpr h, ?_⟩
  intro u d hp hc
  have hne : probeMatches (probe u) ≠ [] := by
    intro h
    rcases (probeMatches_eq_nil _).mp h with h1 | ⟨d1, h1, h2⟩
    · rw [hp] at h1; cases h1
    · rw [hp] at h1; injection h1 with h1; exact h2 (h1 ▸ hc)
  refine ⟨hne, fun hmem => ?_⟩
  exact hne ((probeMatches_eq_nil _).mpr ((hfail u).mp hmem).2)

theorem getNodesSummary_partition_witness :
    probeMatches (nodeStoreProbe "c".toList) = [] ∧
    (probeMatches (nodeStoreProbe "a".toList) ≠ [] ∧
      "a".toList ∉ (getNodesSummary "root".toList (some nodeStore) nodeStoreProbe).failedAccounts) :=
  ⟨(getNodesSummary_partition "root".toList (some nodeStore) nodeStoreProbe).2.2.1
      "c".toList (Or.inl (by decide)),
    (getNodesSummary_partition "root".toList (some nodeStore) nodeStoreProbe).2.2.2
      "a".toList (.str "<p>vmess://abc</p> hysteria2://h@x:1?q=2#n vmess:// ".toList)
      (by decide)
      ⟨vmessScheme, "<p>".toList, "bc</p> hysteria2://h@x:1?q=2#n vmess:// ".toList, 'a',
        Or.inl rfl, by decide, by decide⟩⟩

/-- An example of node discovery: the links of `a` in `successfulNodes`, `b` and `c`
in `failedAccounts`. -/
theorem getNodesSummary_example :
    getNodesSummary "root".toList (some nodeStore) nodeStoreProbe
      = { successfulNodes := ["vmess://abc".toList, "hysteria2://h@x:1?q=2#n".toList],
          failedAccounts := ["b".toList, "c".toList] } := by
  decide

/-! ## Numerals and `parseInt` -/


theorem isDigit_iff (c : Char) : isDigit c = true ↔ 48 ≤ c.toNat ∧ c.toNat ≤ 57 := by
  unfold isDigit
  rw [Bool.and_eq_true, decide_eq_true_iff, decide_eq_true_iff]
  rfl

theorem digitChar_toNat (d : Nat) (h : d < 10) : (digitChar d).toNat = 48 + d := by
  interval_cases d <;> rfl

theorem isDigit_digitChar (d : Nat) (h : d < 10) : isDigit (digitChar d) = true := by
  rw [isDigit_iff, digitChar_toNat d h]; omega

theorem decimalAux_fuel : ∀ (f g n : Nat), n < f → n < g → decimalAux f n = decimalAux g n := by
  intro f
  induction f with
  | zero => intro g n h; omega
  | succ f ih =>
    intro g n hf hg
    cases g with
    | zero => omega
    | succ g =>
      unfold decimalAux
      by_cases hn : n < 10
      · simp [hn]
      · simp only [hn, if_false]
        rw [ih g (n / 10) (by omega) (by omega)]

theorem decimal_of_lt (n : Nat) (h : n < 10) : decimal n = [digitChar n] := by
  simp [decimal, decimalAux, h]

theorem decimal_of_ge (n : Nat) (h : 10 ≤ n) :
    decimal n = decimal (n / 10) ++ [digitChar (n % 10)] := by
  have hn : ¬ n < 10 := by omega
  unfold decimal
  rw [decimalAux, if_neg hn, decimalAux_fuel n (n / 10 + 1) (n / 10) (by omega) (by omega)]

theorem decimal_ne_nil (n : Nat) : decimal n ≠ [] := by
  by_cases h : n < 10
  · simp [decimal_of_lt n h]
  · rw [decimal_of_ge n (by omega)]; simp

theorem decimal_isDigit : ∀ (n : Nat), ∀ c ∈ decimal n, isDigit c = true := by
  intro n
  induction n using Nat.strong_induction_on with
  | _ n ih =>
    intro c hc
    by_cases h : n < 10
    · rw [decimal_of_lt n h] at hc
      rw [List.mem_singleton.mp hc]
      exact isDigit_digitChar n h
    · rw [decimal_of_ge n (by omega)] at hc
      rcases List.mem_append.mp hc with h1 | h1
      · exact ih (n / 10) (by omega) c h1
      · rw [List.mem_singleton.mp h1]
        exact isDigit_digitChar _ (Nat.mod_lt _ (by omega))

theorem digitsValue_append (l : List Char) (c : Char) :
    digitsValue (l ++ [c]) = 10 * digitsValue l + (c.toNat - 48) := by
  simp [digitsValue, List.foldl_append]

theorem digitsValue_decimal : ∀ (n : Nat), digitsValue (decimal n) = n := by
  intro n
  induction n using Nat.strong_induction_on with
  | _ n ih =>
    by_cases h : n < 10
    · rw [decimal_of_lt n h]
      simp [digitsValue, digitChar_toNat n h]
    · rw [decimal_of_ge n (by omega), digitsValue_append, ih (n / 10) (by omega),
        digitChar_toNat _ (Nat.mod_lt _ (by omega))]
      omega

theorem digitsValue_numeral (z n : Nat) : digitsValue (numeral z n) = n := by
  have hz : ∀ z : Nat, List.foldl (fun a c => 10 * a + (c.toNat - 48)) 0 (List.replicate z '0') = 0 := by
    intro z
    induction z with
    | zero => rfl
    | succ z ih => rw [List.replicate_succ, List.foldl_cons]; exact ih
  have := digitsValue_decimal n
  unfold digitsValue at this ⊢
  rw [numeral, List.foldl_append, hz, this]

theorem numeral_isDigit (z n : Nat) : ∀ c ∈ numeral z n, isDigit c = true := by
  intro c hc
  rcases List.mem_append.mp hc with h | h
  · rw [(List.mem_replicate.mp h).2]; decide
  · exact decimal_isDigit n c h

theorem numeral_ne_nil (z n : Nat) : numeral z n ≠ [] := by
  simp [numeral, decimal_ne_nil]

theorem isDigit_not_space (c : Char) (h : isDigit c = true) : isJsWhiteSpace c = false := by
  rw [isDigit_iff] at h
  unfold isJsWhiteSpace
  simp only [Bool.or_eq_false_iff, Bool.and_eq_false_iff, decide_eq_false_iff_not]
  omega

theorem parseInt_digits (s : List Char) (hne : s ≠ []) (hall : ∀ c ∈ s, isDigit c = true) :
    parseInt s = match roundToDouble (digitsValue s) with
      | none => .inf false
      | some v => .fin v := by
  cases s with
  | nil => exact absurd rfl hne
  | cons a as =>
    have ha := hall a (by simp)
    have hsp := isDigit_not_space a ha
    have hb := (isDigit_iff a).mp ha
    have hminus : a ≠ '-' := by
      intro e; rw [e] at hb; revert hb; decide
    have hplus : a ≠ '+' := by
      intro e; rw [e] at hb; revert hb; decide
    have htake : List.takeWhile isDigit (a :: as) = a :: as :=
      List.takeWhile_eq_self_iff.mpr hall
    unfold parseInt
    simp only [List.dropWhile_cons, hsp, List.head?_cons]
    have hm : (a == '-') = false := beq_eq_false_iff_ne.mpr hminus
    have hp : (a == '+') = false := beq_eq_false_iff_ne.mpr hplus
    simp [hm, hp, htake]

theorem parseInt_numeral (z n : Nat) (h : n < 2 ^ 53) : parseInt (numeral z n) = .fin n := by
  rw [parseInt_digits _ (numeral_ne_nil z n) (numeral_isDigit z n), digitsValue_numeral]
  have h' : n < 9007199254740992 := by norm_num at h; exact h
  simp [roundToDouble, h']

theorem toJsString_fin (n : Nat) (h : n < 2 ^ 53) : (JsNum.fin n).toJsString = decimal n := by
  have h1 : ¬ ((n : Int) < 0) := by omega
  have h2 : n ≤ 9007199254740992 := by norm_num at h; omega
  have h3 : ¬ (9007199254740992 < n) := by omega
  simp [JsNum.toJsString, natToString, h1, h2, h3]

theorem splitOn_append (sep : Char) (b : List Char) :
    ∀ (a : List Char), sep ∉ a → splitOn sep (a ++ sep :: b) = a :: splitOn sep b := by
  intro a
  induction a with
  | nil => intro _; simp [splitOn]
  | cons c cs ih =>
    intro h
    have hc : c ≠ sep := fun e => h (by simp [e])
    have hcs : sep ∉ cs := fun e => h (List.mem_cons_of_mem _ e)
    rw [List.cons_append, splitOn, if_neg hc, ih hcs]

theorem numeral_no_sep (z n : Nat) (sep : Char) (hsep : isDigit sep = false) :
    sep ∉ numeral z n := by
  intro h
  rw [numeral_isDigit z n sep h] at hsep
  cases hsep

theorem hourMinute_numeral (h n zh zn : Nat) (hh : h < 2 ^ 53) (hn : n < 2 ^ 53) :
    hourMinute (numeral zh h ++ ':' :: numeral zn n) = (some (.fin h), some (.fin n)) := by
  unfold hourMinute
  rw [splitOn_append ':' _ _ (numeral_no_sep zh h ':' (by decide)),
    splitOn_of_not_mem ':' _ (numeral_no_sep zn n ':' (by decide))]
  simp only [List.map_cons, List.map_nil, List.head?_cons, List.tail_cons,
    parseInt_numeral zh h hh, parseInt_numeral zn n hn]

theorem getCronExpression_interval (m zm : Nat) (hm : 0 < m) (hsafe : m < 2 ^ 53) :
    getCronExpression "interval".toList (numeral zm m)
      = .ok (some ("*/".toList ++ decimal m ++ " * * * *".toList)) := by
  have hpos : ¬ ((m : Int) ≤ 0) := by omega
  simp [getCronExpression, parseInt_numeral zm m hsafe, isNaN, hpos, toJsString_fin m hsafe]

theorem getCronExpression_daily (h n zh zn : Nat) (hh : h ≤ 23) (hn : n ≤ 59) :
    getCronExpression "daily".toList (numeral zh h ++ ':' :: numeral zn n)
      = .ok (some (decimal n ++ " ".toList ++ decimal h ++ " * * *".toList)) := by
  have hh' : h < 2 ^ 53 := by norm_num; omega
  have hn' : n < 2 ^ 53 := by norm_num; omega
  have hhm := hourMinute_numeral h n zh zn hh' hn'
  have h1 : "daily".toList ≠ "interval".toList := by decide
  simp [getCronExpression, h1, hhm, isNaN, toJsString_fin h hh', toJsString_fin n hn']

theorem getCronExpression_weekly (h n zh zn d : Nat) (label : List Char)
    (hh : h ≤ 23) (hn : n ≤ 59) (hlabel : (label, d) ∈ weekDays) :
    getCronExpression "weekly".toList (label ++ '-' :: (numeral zh h ++ ':' :: numeral zn n))
      = .ok (some (decimal n ++ " ".toList ++ decimal h ++ " * * ".toList ++ decimal d)) := by
  have hh' : h < 2 ^ 53 := by norm_num; omega
  have hn' : n < 2 ^ 53 := by norm_num; omega
  have hhm := hourMinute_numeral h n zh zn hh' hn'
  have h1 : "weekly".toList ≠ "interval".toList := by decide
  have h2 : "weekly".toList ≠ "daily".toList := by decide
  have htime : '-' ∉ numeral zh h ++ ':' :: numeral zn n := by
    intro hmem
    rcases List.mem_append.mp hmem with h3 | h3
    · exact numeral_no_sep zh h '-' (by decide) h3
    · rcases List.mem_cons.mp h3 with h4 | h4
      · revert h4; decide
      · exact numeral_no_sep zn n '-' (by decide) h4
  have hl : '-' ∉ label ∧ getProp weekDays label = some d := by
    simp only [weekDays, List.mem_cons, Prod.mk.injEq, List.mem_nil_iff, or_false] at hlabel
    rcases hlabel with ⟨rfl, rfl⟩ | ⟨rfl, rfl⟩ | ⟨rfl, rfl⟩ | ⟨rfl, rfl⟩ | ⟨rfl, rfl⟩ |
      ⟨rfl, rfl⟩ | ⟨rfl, rfl⟩ <;> decide
  simp [getCronExpression, h1, h2, splitOn_append '-' _ label hl.1,
    splitOn_of_not_mem '-' _ htime, hl.2, hhm, isNaN, toJsString_fin h hh',
    toJsString_fin n hn']

/-- C4 (amended): `getCronExpression` translates every valid schedule whose interval
is below `2 ^ 53`: a positive `m < 2 ^ 53` written in decimal gives `*/m * * * *`, an
hour `h` in 0..23 and a minute `n` in 0..59 written `HH:MM` (with any leading zeros)
give `n h * * *`, and each weekday label with index `d` gives `n h * * d`. -/
theorem getCronExpression_valid (m zm h n zh zn d : Nat) (label : List Char)
    (hm : 0 < m) (hsafe : m < 2 ^ 53) (hh : h ≤ 23) (hn : n ≤ 59)
    (hlabel : (label, d) ∈ weekDays) :
    getCronExpression "interval".toList (numeral zm m)
      = .ok (some ("*/".toList ++ decimal m ++ " * * * *".toList)) ∧
    getCronExpression "daily".toList (numeral zh h ++ ':' :: numeral zn n)
      = .ok (some (decimal n ++ " ".toList ++ decimal h ++ " * * *".toList)) ∧
    getCronExpression "weekly".toList (label ++ '-' :: (numeral zh h ++ ':' :: numeral zn n))
      = .ok (some (decimal n ++ " ".toList ++ decimal h ++ " * * ".toList ++ decimal d)) :=
  ⟨getCronExpression_interval m zm hm hsafe, getCronExpression_daily h n zh zn hh hn,
    getCronExpression_weekly h n zh zn d label hh hn hlabel⟩

theorem getCronExpression_valid_witness :
    getCronExpression "interval".toList (numeral 0 15)
      = .ok (some ("*/".toList ++ decimal 15 ++ " * * * *".toList)) ∧
    getCronExpression "daily".toList (numeral 1 9 ++ ':' :: numeral 0 30)
      = .ok (some (decimal 30 ++ " ".toList ++ decimal 9 ++ " * * *".toList)) ∧
    getCronExpression "weekly".toList ("周一".toList ++ '-' :: (numeral 1 9 ++ ':' :: numeral 0 30))
      = .ok (some (decimal 30 ++ " ".toList ++ decimal 9 ++ " * * ".toList ++ decimal 1)) :=
  getCronExpression_valid 15 0 9 30 1 0 1 "周一".toList (by decide) (by decide) (by decide)
    (by decide) (by decide)

/-- C4 (as stated) fails: the decimal numeral of `2 ^ 53 + 1` is read as the double
`2 ^ 53`, and the expression carries that number instead. -/
theorem getCronExpression_valid_counterexample :
    decimal (2 ^ 53 + 1) = "9007199254740993".toList ∧
    getCronExpression "interval".toList "9007199254740993".toList
      = .ok (some "*/9007199254740992 * * * *".toList) := by
  decide

/-- The three witnesses of the claim. -/
theorem getCronExpression_examples :
    getCronExpression "interval".toList "15".toList = .ok (some "*/15 * * * *".toList) ∧
    getCronExpression "daily".toList "09:30".toList = .ok (some "30 9 * * *".toList) ∧
    getCronExpression "weekly".toList "周一-08:00".toList = .ok (some "0 8 * * 1".toList) := by
  decide

/-! ## What `getCronExpression` accepts -/


theorem parseInt_ne_nan (s : List Char) (h : parseInt s ≠ .nan) :
    ∃ negative digits, LeadingNumeral s negative digits ∧
      parseInt s = match roundToDouble (digitsValue digits) with
        | none => .inf negative
        | some v => .fin (if negative then -(v : Int) else v) := by
  have hws : s = s.takeWhile isJsWhiteSpace ++ s.dropWhile isJsWhiteSpace :=
    (List.takeWhile_append_dropWhile _ _).symm
  have hwsall : ∀ c ∈ s.takeWhile isJsWhiteSpace, isJsWhiteSpace c = true :=
    fun c hc => List.mem_takeWhile_imp hc
  generalize ht : s.dropWhile isJsWhiteSpace = t at hws
  have hsign : ∃ sign u negative, t = sign ++ u ∧
      (sign = [] ∧ negative = false ∨ sign = ['+'] ∧ negative = false ∨
        sign = ['-'] ∧ negative = true) ∧
      negative = (t.head? == some '-') ∧
      u = (if t.head? == some '-' || t.head? == some '+' then t.tail else t) := by
    cases t with
    | nil => exact ⟨[], [], false, rfl, Or.inl ⟨rfl, rfl⟩, rfl, rfl⟩
    | cons a as =>
      by_cases h1 : a = '-'
      · subst h1
        exact ⟨['-'], as, true, rfl, Or.inr (Or.inr ⟨rfl, rfl⟩), rfl, rfl⟩
      · by_cases h2 : a = '+'
        · subst h2
          exact ⟨['+'], as, false, rfl, Or.inr (Or.inl ⟨rfl, rfl⟩), rfl, rfl⟩
        · refine ⟨[], a :: as, false, rfl, Or.inl ⟨rfl, rfl⟩, ?_, ?_⟩
          · simp [h1]
          · simp [h1, h2]
  obtain ⟨sign, u, negative, htu, hsg, hneg, hu⟩ := hsign
  have hp : parseInt s = if (u.takeWhile isDigit).isEmpty then .nan
      else match roundToDouble (digitsValue (u.takeWhile isDigit)) with
        | none => .inf negative
        | some v => .fin (if negative then -(v : Int) else v) := by
    unfold parseInt
    simp only [ht]
    rw [← hu, ← hneg]
  have hz : (u.takeWhile isDigit).isEmpty = false := by
    by_contra hne
    rw [Bool.not_eq_false] at hne
    rw [hp, if_pos hne] at h
    exact h rfl
  rw [hz] at hp
  refine ⟨negative, u.takeWhile isDigit, ⟨s.takeWhile isJsWhiteSpace, sign,
    u.dropWhile isDigit, ?_, hwsall, hsg, ?_, fun c hc => List.mem_takeWhile_imp hc, ?_⟩, ?_⟩
  · rw [List.append_assoc, List.append_assoc, List.takeWhile_append_dropWhile, ← htu]
    exact hws
  · intro hnil; rw [hnil] at hz; simp at hz
  · intro c hc
    cases hq : List.dropWhile isDigit u with
    | nil => rw [hq] at hc; simp at hc
    | cons x xs =>
      rw [hq] at hc
      simp only [List.head?_cons, Option.some.injEq] at hc
      subst hc
      have := List.head_dropWhile_not isDigit u (by rw [hq]; simp)
      simpa [hq] using this
  · simpa using hp

theorem isNaN_some (x : JsNum) : isNaN (some x) = false ↔ x ≠ .nan := by
  cases x <;> simp [isNaN]

theorem getProp_mem {V : Type} (o : List (List Char × V)) (k : List Char) (v : V)
    (h : getProp o k = some v) : (k, v) ∈ o := by
  unfold getProp at h
  rw [Option.map_eq_some'] at h
  obtain ⟨p, hp, hv⟩ := h
  have hk : p.1 = k := by simpa using List.find?_some hp
  have hm := List.mem_of_find?_eq_some hp
  rw [← hk, ← hv]
  exact hm

theorem getProp_none {V : Type} (o : List (List Char × V)) (k : List Char)
    (h : ∀ v, (k, v) ∉ o) : getProp o k = none := by
  unfold getProp
  rw [Option.map_eq_none', List.find?_eq_none]
  intro p hp hk
  have hk' : p.1 = k := by simpa using hk
  exact h p.2 (by rw [← hk']; exact hp)

theorem hourMinute_some (time : List Char) (hour minute : JsNum)
    (h : hourMinute time = (some hour, some minute)) :
    ∃ hs ms rest, splitOn ':' time = hs :: ms :: rest ∧
      hour = parseInt hs ∧ minute = parseInt ms := by
  unfold hourMinute at h
  cases hq : splitOn ':' time with
  | nil => rw [hq] at h; simp at h
  | cons hs tl =>
    cases tl with
    | nil => rw [hq] at h; simp at h
    | cons ms rest =>
      rw [hq] at h
      simp only [List.map_cons, List.head?_cons, List.tail_cons, Prod.mk.injEq,
        Option.some.injEq] at h
      exact ⟨hs, ms, rest, rfl, h.1.symm, h.2.symm⟩

theorem parseInt_positive (s : List Char) (hnan : parseInt s ≠ .nan)
    (hpos : (match parseInt s with
      | .nan => false
      | .inf negative => negative
      | .fin v => decide (v ≤ 0)) = false) :
    ∃ digits, LeadingNumeral s false digits ∧ 0 < digitsValue digits := by
  obtain ⟨negative, digits, hl, hp⟩ := parseInt_ne_nan s hnan
  rw [hp] at hpos
  have h0 : roundToDouble 0 = some 0 := by decide
  cases hr : roundToDouble (digitsValue digits) with
  | none =>
    rw [hr] at hpos
    simp only at hpos
    subst hpos
    refine ⟨digits, hl, ?_⟩
    by_contra hz
    have : digitsValue digits = 0 := by omega
    rw [this, h0] at hr
    cases hr
  | some v =>
    rw [hr] at hpos
    simp only [decide_eq_false_iff_not, not_le] at hpos
    cases negative with
    | true => simp at hpos; omega
    | false =>
      refine ⟨digits, hl, ?_⟩
      by_contra hz
      have : digitsValue digits = 0 := by omega
      rw [this, h0] at hr
      simp only [Option.some.injEq] at hr
      subst hr
      simp at hpos

/-- C5 (amended): if `getCronExpression` returns an expression, then the schedule type
is `interval` and `timeValue` starts (after white space and an optional `+`) with a
decimal numeral of positive value, or it is `daily` and the first two `:`-separated
fields of `timeValue` each start with a decimal numeral (optional white space and sign
first), or it is `weekly`, the part before the first `-` is one of the seven labels and
the first two `:`-separated fields of the next `-`-separated part each start with a
decimal numeral; the expression is built from the numbers `parseInt` reads there.  An
unknown schedule type and an unknown weekday label are answered with `null`. -/
theorem getCronExpression_accepts (scheduleType timeValue : List Char) :
    (∀ e, getCronExpression scheduleType timeValue = .ok (some e) →
      (scheduleType = "interval".toList ∧
        (∃ digits, LeadingNumeral timeValue false digits ∧ 0 < digitsValue digits) ∧
        e = "*/".toList ++ (parseInt timeValue).toJsString ++ " * * * *".toList) ∨
      (scheduleType = "daily".toList ∧
        ∃ hour minute rest, splitOn ':' timeValue = hour :: minute :: rest ∧
          IsNumeric hour ∧ IsNumeric minute ∧
          e = (parseInt minute).toJsString ++ " ".toList ++ (parseInt hour).toJsString ++
            " * * *".toList) ∨
      (scheduleType = "weekly".toList ∧
        ∃ day time others d hour minute rest,
          splitOn '-' timeValue = day :: time :: others ∧ (day, d) ∈ weekDays ∧
          splitOn ':' time = hour :: minute :: rest ∧ IsNumeric hour ∧ IsNumeric minute ∧
          e = (parseInt minute).toJsString ++ " ".toList ++ (parseInt hour).toJsString ++
            " * * ".toList ++ decimal d)) ∧
    (scheduleType ≠ "interval".toList → scheduleType ≠ "daily".toList →
      scheduleType ≠ "weekly".toList →
      getCronExpression scheduleType timeValue = .ok none) ∧
    (scheduleType = "weekly".toList → ∀ day time others,
      splitOn '-' timeValue = day :: time :: others → (∀ d, (day, d) ∉ weekDays) →
      getCronExpression scheduleType timeValue = .ok none) := by
  have hnum : ∀ s, parseInt s ≠ .nan → IsNumeric s := by
    intro s hs
    obtain ⟨negative, digits, hl, _⟩ := parseInt_ne_nan s hs
    exact ⟨negative, digits, hl⟩
  refine ⟨?_, ?_, ?_⟩
  · intro e he
    unfold getCronExpression at he
    by_cases h1 : scheduleType = "interval".toList
    · rw [if_pos h1] at he
      left
      simp only at he
      split at he
      · cases he
      · rename_i hcond
        rw [Bool.or_eq_true, not_or, Bool.not_eq_true, Bool.not_eq_true] at hcond
        have hnan := (isNaN_some _).mp hcond.1
        refine ⟨h1, parseInt_positive timeValue hnan hcond.2, ?_⟩
        injection he with he
        injection he with he
        exact he.symm
    · rw [if_neg h1] at he
      by_cases h2 : scheduleType = "daily".toList
      · rw [if_pos h2] at he
        right; left
        cases hq : hourMinute timeValue with
        | mk oh om =>
          rw [hq] at he
          cases oh with
          | none => cases he
          | some hour =>
            cases om with
            | none => cases he
            | some minute =>
              simp only at he
              split at he
              · cases he
              · rename_i hcond
                rw [Bool.or_eq_true, not_or, Bool.not_eq_true, Bool.not_eq_true] at hcond
                obtain ⟨hs, ms, rest, hsplit, hh, hm⟩ := hourMinute_some timeValue hour minute hq
                subst hh
                subst hm
                refine ⟨h2, hs, ms, rest, hsplit, hnum hs ((isNaN_some _).mp hcond.1),
                  hnum ms ((isNaN_some _).mp hcond.2), ?_⟩
                injection he with he
                injection he with he
                exact he.symm
      · rw [if_neg h2] at he
        by_cases h3 : scheduleType = "weekly".toList
        · rw [if_pos h3] at he
          right; right
          simp only at he
          cases hsp : splitOn '-' timeValue with
          | nil => exact absurd hsp (splitOn_ne_nil _ _)
          | cons day tl =>
            rw [hsp] at he
            cases tl with
            | nil => simp at he
            | cons time others =>
              simp only [List.tail_cons, List.head?_cons, Option.getD_some] at he
              cases hd : getProp weekDays day with
              | none => rw [hd] at he; cases he
              | some d =>
                rw [hd] at he
                cases hq : hourMinute time with
                | mk oh om =>
                  rw [hq] at he
                  cases oh with
                  | none => cases he
                  | some hour =>
                    cases om with
                    | none => cases he
                    | some minute =>
                      simp only at he
                      split at he
                      · cases he
                      · rename_i hcond
                        rw [Bool.or_eq_true, not_or, Bool.not_eq_true, Bool.not_eq_true] at hcond
                        obtain ⟨hs, ms, rest, hsplit, hh, hm⟩ :=
                          hourMinute_some time hour minute hq
                        subst hh
                        subst hm
                        refine ⟨h3, day, time, others, d, hs, ms, rest, rfl,
                          getProp_mem _ _ _ hd, hsplit, hnum hs ((isNaN_some _).mp hcond.1),
                          hnum ms ((isNaN_some _).mp hcond.2), ?_⟩
                        injection he with he
                        injection he with he
                        exact he.symm
        · rw [if_neg h3] at he
          cases he
  · intro h1 h2 h3
    unfold getCronExpression
    rw [if_neg h1, if_neg h2, if_neg h3]
  · intro h3 day time others hsp hday
    have h1 : scheduleType ≠ "interval".toList := by rw [h3]; decide
    have h2 : scheduleType ≠ "daily".toList := by rw [h3]; decide
    unfold getCronExpression
    rw [if_neg h1, if_neg h2, if_pos h3]
    simp only [hsp, List.tail_cons, List.head?_cons, Option.getD_some,
      getProp_none weekDays day hday]

theorem getCronExpression_accepts_witness :
    ("daily".toList = "interval".toList ∧
        (∃ digits, LeadingNumeral "9:30x".toList false digits ∧ 0 < digitsValue digits) ∧
        "30 9 * * *".toList
          = "*/".toList ++ (parseInt "9:30x".toList).toJsString ++ " * * * *".toList) ∨
      ("daily".toList = "daily".toList ∧
        ∃ hour minute rest, splitOn ':' "9:30x".toList = hour :: minute :: rest ∧
          IsNumeric hour ∧ IsNumeric minute ∧
          "30 9 * * *".toList
            = (parseInt minute).toJsString ++ " ".toList ++ (parseInt hour).toJsString ++
              " * * *".toList) ∨
      ("daily".toList = "weekly".toList ∧
        ∃ day time others d hour minute rest,
          splitOn '-' "9:30x".toList = day :: time :: others ∧ (day, d) ∈ weekDays ∧
          splitOn ':' time = hour :: minute :: rest ∧ IsNumeric hour ∧ IsNumeric minute ∧
          "30 9 * * *".toList
            = (parseInt minute).toJsString ++ " ".toList ++ (parseInt hour).toJsString ++
              " * * ".toList ++ decimal d) :=
  (getCronExpression_accepts "daily".toList "9:30x".toList).1 "30 9 * * *".toList (by decide)

/-- C5 (as stated) fails: an hour of 25 with a minute of 99, a negative hour and a
numeral with trailing junk are all accepted. -/
theorem getCronExpression_accepts_counterexample :
    getCronExpression "daily".toList "25:99".toList = .ok (some "99 25 * * *".toList) ∧
    getCronExpression "daily".toList "-5:30".toList = .ok (some "30 -5 * * *".toList) ∧
    getCronExpression "interval".toList "15abc".toList = .ok (some "*/15 * * * *".toList) ∧
    getCronExpression "weekly".toList "周一-25:99".toList
      = .ok (some "99 25 * * 1".toList) := by
  decide

/-- What C5 lists and the code does reject: a negative interval, an unknown weekday
label and an unknown schedule type. -/
theorem getCronExpression_rejects_examples :
    getCronExpression "interval".toList "-5".toList = .ok none ∧
    getCronExpression "interval".toList "0".toList = .ok none ∧
    getCronExpression "weekly".toList "周八-08:00".toList = .ok none ∧
    getCronExpression "monthly".toList "1".toList = .ok none ∧
    getCronExpression "daily".toList "9".toList = .ok none := by
  decide

/-! ## Scheduler state -/


theorem stopped_all (st : State) (h : Inv st) :
    ∀ (i : Nat) (j : Job), (stopped st).jobs[i]? = some j → j.running = false := by
  intro i j hj
  unfold stopped at hj
  cases hc : st.cronJob with
  | none =>
    rw [hc] at hj
    by_contra hr
    have := h i j hj (by simpa using hr)
    rw [hc] at this
    cases this
  | some k =>
    rw [hc] at hj
    simp only [stopJob] at hj
    by_cases hk : k = i
    · subst hk
      rw [List.getElem?_modify_eq, Option.map_eq_map, Option.map_eq_some'] at hj
      obtain ⟨j0, _, hj0⟩ := hj
      rw [← hj0]
    · rw [List.getElem?_modify_ne _ _ hk] at hj
      by_contra hr
      have := h i j hj (by simpa using hr)
      rw [hc] at this
      injection this with this
      exact hk this

theorem liveJobs_stopped (st : State) (h : Inv st) : liveJobs (stopped st) = [] := by
  unfold liveJobs
  rw [List.filter_eq_nil_iff]
  intro j hj
  obtain ⟨i, hi⟩ := List.getElem?_of_mem hj
  rw [stopped_all st h i j hi]
  simp

theorem stopped_fields (st : State) :
    (stopped st).settingsFile = st.settingsFile ∧ (stopped st).cronJob = st.cronJob ∧
      (stopped st).jobs.length = st.jobs.length ∧
      (stopped st).jobs.map Job.expression = st.jobs.map Job.expression := by
  unfold stopped
  split
  · rename_i i _
    refine ⟨rfl, rfl, by simp [stopJob], ?_⟩
    apply List.ext_getElem?
    intro n
    simp only [stopJob, List.getElem?_map, List.getElem?_modify]
    cases st.jobs[n]? with
    | none => rfl
    | some j => by_cases h : i = n <;> simp [h]
  · simp

theorem resetCronJob_cases (cronValid : List Char → Bool) (st : State) :
    (∃ r, resetCronJob cronValid st = (stopped st, r)) ∨
    (∃ e, getCronExpression ((getNotificationSettings st).scheduleType.getD [])
          ((getNotificationSettings st).timeValue.getD []) = .ok (some e) ∧
        missing (getNotificationSettings st).scheduleType = false ∧
        missing (getNotificationSettings st).timeValue = false ∧
        cronValid e = true ∧
        resetCronJob cronValid st = (install (stopped st) e, .ok ())) := by
  have hs : getNotificationSettings (stopped st) = getNotificationSettings st := by
    simp [getNotificationSettings, (stopped_fields st).1]
  unfold resetCronJob
  simp only [hs]
  split
  · exact Or.inl ⟨_, rfl⟩
  · rename_i hm
    rw [Bool.or_eq_true, not_or, Bool.not_eq_true, Bool.not_eq_true] at hm
    split
    · exact Or.inl ⟨_, rfl⟩
    · exact Or.inl ⟨_, rfl⟩
    · rename_i e he
      split
      · exact Or.inl ⟨_, rfl⟩
      · split
        · rename_i hv
          exact Or.inr ⟨e, he, hm.1, hm.2, hv, rfl⟩
        · exact Or.inl ⟨_, rfl⟩

theorem inv_stopped (st : State) (h : Inv st) : Inv (stopped st) := by
  intro i j hj hr
  rw [stopped_all st h i j hj] at hr
  cases hr

theorem inv_install (st : State) (e : List Char)
    (h : ∀ (i : Nat) (j : Job), st.jobs[i]? = some j → j.running = false) :
    Inv (install st e) := by
  intro i j hj hr
  simp only [install] at hj ⊢
  by_cases hi : i < st.jobs.length
  · rw [List.getElem?_append_left hi] at hj
    rw [h i j hj] at hr
    cases hr
  · by_cases hi2 : i = st.jobs.length
    · rw [hi2]
    · rw [List.getElem?_eq_none (by simp; omega)] at hj
      cases hj

theorem inv_resetCronJob (cronValid : List Char → Bool) (st : State) (h : Inv st) :
    Inv (resetCronJob cronValid st).1 := by
  rcases resetCronJob_cases cronValid st with ⟨r, hr⟩ | ⟨e, _, _, _, _, hr⟩
  · rw [hr]; exact inv_stopped st h
  · rw [hr]; exact inv_install _ e (stopped_all st h)

theorem inv_settingsFile (st : State) (file : Option Settings) (h : Inv st) :
    Inv { st with settingsFile := file } := h

theorem liveJobs_install (st : State) (e : List Char) (h : liveJobs st = []) :
    liveJobs (install st e) = [{ expression := e, running := true }] ∧
      heldJob (install st e) = some { expression := e, running := true } := by
  unfold liveJobs at h
  constructor
  · simp [liveJobs, install, List.filter_append, h]
  · simp [heldJob, install]

theorem setNotificationSettings_cases (cronValid : List Char → Bool) (st : State)
    (body : Settings) :
    (∃ code, code ≠ 200 ∧ setNotificationSettings cronValid st body = (st, code) ∧
      (missing body.telegramToken = true ∨ missing body.telegramChatId = true ∨
        missing body.scheduleType = true ∨ missing body.timeValue = true ∨
        getCronExpression (body.scheduleType.getD []) (body.timeValue.getD []) = .ok none ∨
        getCronExpression (body.scheduleType.getD []) (body.timeValue.getD [])
          = .ok (some []) ∨
        ∃ err, getCronExpression (body.scheduleType.getD []) (body.timeValue.getD [])
          = .error err)) ∨
    (missing body.telegramToken = false ∧ missing body.telegramChatId = false ∧
      missing body.scheduleType = false ∧ missing body.timeValue = false ∧
      (∃ e, getCronExpression (body.scheduleType.getD []) (body.timeValue.getD [])
        = .ok (some e) ∧ e.isEmpty = false) ∧
      (setNotificationSettings cronValid st body).1
        = (resetCronJob cronValid (saveNotificationSettings st body)).1 ∧
      ((setNotificationSettings cronValid st body).2 = 200 ↔
        (resetCronJob cronValid (saveNotificationSettings st body)).2 = .ok ())) := by
  unfold setNotificationSettings
  split
  · rename_i hm
    simp only [Bool.or_eq_true] at hm
    exact Or.inl ⟨400, by decide, rfl, by tauto⟩
  · rename_i hm
    simp only [Bool.or_eq_true, not_or, Bool.not_eq_true] at hm
    split
    · rename_i err he
      exact Or.inl ⟨500, by decide, rfl, by simp [he]⟩
    · rename_i he
      exact Or.inl ⟨400, by decide, rfl, by simp [he]⟩
    · rename_i e he
      split
      · rename_i hemp
        have : e = [] := by simpa using hemp
        exact Or.inl ⟨400, by decide, rfl, by simp [he, this]⟩
      · rename_i hemp
        right
        refine ⟨hm.1.1.1, hm.1.1.2, hm.1.2, hm.2, ⟨e, he, by simpa using hemp⟩, ?_, ?_⟩
        · simp only
          split <;> simp_all
        · simp only
          split <;> simp_all

theorem inv_setNotificationSettings (cronValid : List Char → Bool) (st : State)
    (body : Settings) (h : Inv st) : Inv (setNotificationSettings cronValid st body).1 := by
  rcases setNotificationSettings_cases cronValid st body with
    ⟨code, _, hc, _⟩ | ⟨_, _, _, _, _, hs, _⟩
  · rw [hc]; exact h
  · rw [hs]
    exact inv_resetCronJob cronValid _ (inv_settingsFile st (some body) h)

theorem inv_setTelegramSettings (st : State) (body : Settings) (h : Inv st) :
    Inv (setTelegramSettings st body).1 := by
  unfold setTelegramSettings
  split
  · exact h
  · exact inv_settingsFile st _ h

theorem inv_step (cronValid : List Char → Bool) (st : State) (a : Action) (h : Inv st) :
    Inv (step cronValid st a) := by
  cases a with
  | reset => exact inv_resetCronJob cronValid st h
  | notificationSettings body => exact inv_setNotificationSettings cronValid st body h
  | telegramSettings body => exact inv_setTelegramSettings st body h

theorem inv_run (cronValid : List Char → Bool) (file : Option Settings)
    (actions : List Action) : Inv (run cronValid file actions) := by
  have hstart : Inv (start cronValid file) := by
    apply inv_resetCronJob
    intro i j hj
    simp at hj
  unfold run
  generalize start cronValid file = st at hstart
  induction actions generalizing st with
  | nil => exact hstart
  | cons a as ih => exact ih _ (inv_step cronValid st a hstart)

theorem filter_of_index {α : Type} (p : α → Bool) :
    ∀ (l : List α) (k : Nat), (∀ (i : Nat) (a : α), l[i]? = some a → p a = true → i = k) →
      l.filter p = [] ∨ ∃ a, l[k]? = some a ∧ l.filter p = [a] := by
  intro l
  induction l with
  | nil => intro k _; exact Or.inl rfl
  | cons x xs ih =>
    intro k h
    by_cases hx : p x = true
    · have hk : 0 = k := h 0 x (by simp) hx
      subst hk
      right
      refine ⟨x, by simp, ?_⟩
      have hnil : xs.filter p = [] := by
        rw [List.filter_eq_nil_iff]
        intro a ha hpa
        obtain ⟨i, hi⟩ := List.getElem?_of_mem ha
        have := h (i + 1) a (by simpa using hi) hpa
        omega
      simp [List.filter_cons, hx, hnil]
    · cases k with
      | zero =>
        left
        rw [List.filter_eq_nil_iff]
        intro a ha hpa
        rcases List.mem_cons.mp ha with h1 | h1
        · rw [h1] at hpa; exact hx hpa
        · obtain ⟨i, hi⟩ := List.getElem?_of_mem h1
          have := h (i + 1) a (by simpa using hi) hpa
          omega
      | succ k =>
        have hxs : ∀ (i : Nat) (a : α), xs[i]? = some a → p a = true → i = k := by
          intro i a hi hpa
          have := h (i + 1) a (by simpa using hi) hpa
          omega
        rcases ih k hxs with h1 | ⟨a, ha, h1⟩
        · left; simp [List.filter_cons, hx, h1]
        · right; exact ⟨a, by simpa using ha, by simp [List.filter_cons, hx, h1]⟩

theorem live_of_inv (st : State) (h : Inv st) :
    liveJobs st = [] ∨ ∃ j, liveJobs st = [j] ∧ heldJob st = some j := by
  cases hc : st.cronJob with
  | none =>
    left
    unfold liveJobs
    rw [List.filter_eq_nil_iff]
    intro j hj hr
    obtain ⟨i, hi⟩ := List.getElem?_of_mem hj
    have := h i j hi hr
    rw [hc] at this
    cases this
  | some k =>
    have hidx : ∀ (i : Nat) (j : Job), st.jobs[i]? = some j → j.running = true → i = k := by
      intro i j hi hr
      have := h i j hi hr
      rw [hc] at this
      injection this with this
      exact this.symm
    rcases filter_of_index (fun j : Job => j.running) st.jobs k hidx with h1 | ⟨j, hj, h1⟩
    · exact Or.inl h1
    · exact Or.inr ⟨j, h1, by simp [heldJob, hc, hj]⟩

theorem resetCronJob_valid (cronValid : List Char → Bool) (st : State) (e : List Char)
    (h1 : missing (getNotificationSettings st).scheduleType = false)
    (h2 : missing (getNotificationSettings st).timeValue = false)
    (he : getCronExpression ((getNotificationSettings st).scheduleType.getD [])
      ((getNotificationSettings st).timeValue.getD []) = .ok (some e))
    (hne : e.isEmpty = false) :
    resetCronJob cronValid st =
      if cronValid e then (install (stopped st) e, .ok ())
      else (stopped st, .error .invalidCron) := by
  have hs : getNotificationSettings (stopped st) = getNotificationSettings st := by
    simp [getNotificationSettings, (stopped_fields st).1]
  unfold resetCronJob
  simp only [hs, h1, h2, he, hne, Bool.or_self, Bool.false_eq_true, if_false]

theorem setNotificationSettings_ok (cronValid : List Char → Bool) (st : State)
    (body : Settings) (hinv : Inv st)
    (h : (setNotificationSettings cronValid st body).2 = 200) :
    ∃ e, getCronExpression (body.scheduleType.getD []) (body.timeValue.getD [])
        = .ok (some e) ∧
      liveJobs (setNotificationSettings cronValid st body).1
        = [{ expression := e, running := true }] ∧
      heldJob (setNotificationSettings cronValid st body).1
        = some { expression := e, running := true } := by
  rcases setNotificationSettings_cases cronValid st body with
    ⟨code, hcode, hc, _⟩ | ⟨_, _, hm1, hm2, ⟨e, he, hne⟩, hs, hok⟩
  · rw [hc] at h; exact absurd h hcode
  · have hreset := resetCronJob_valid cronValid (saveNotificationSettings st body) e
      (by simpa [getNotificationSettings, saveNotificationSettings] using hm1)
      (by simpa [getNotificationSettings, saveNotificationSettings] using hm2)
      (by simpa [getNotificationSettings, saveNotificationSettings] using he) hne
    have hres := hok.mp h
    by_cases hv : cronValid e = true
    · rw [hs, hreset, if_pos hv]
      have hlive := liveJobs_stopped (saveNotificationSettings st body)
        (inv_settingsFile st (some body) hinv)
      exact ⟨e, he, liveJobs_install _ e hlive⟩
    · rw [hreset, if_neg hv] at hres
      cases hres

/-! ## Scheduler -/

/-- C6 (the code fails it): with scheduleType `weekly` and timeValue `周一`, which has
no `-`, `getCronExpression` raises a TypeError, and POST /setNotificationSettings
answers 500 instead of its 400 client error (the state is left as it was). -/
theorem setNotificationSettings_weekly_raises (cronValid : List Char → Bool) (st : State) :
    getCronExpression "weekly".toList "周一".toList = .error .typeError ∧
    setNotificationSettings cronValid st (scheduleBody "weekly".toList "周一".toList)
      = (st, 500) := by
  have h : getCronExpression "weekly".toList "周一".toList = .error .typeError := by decide
  refine ⟨h, ?_⟩
  have hm : (missing (scheduleBody "weekly".toList "周一".toList).telegramToken ||
      missing (scheduleBody "weekly".toList "周一".toList).telegramChatId ||
      missing (scheduleBody "weekly".toList "周一".toList).scheduleType ||
      missing (scheduleBody "weekly".toList "周一".toList).timeValue) = false := by decide
  unfold setNotificationSettings
  rw [hm]
  simp only [Bool.false_eq_true, if_false]
  have h' : getCronExpression ((scheduleBody "weekly".toList "周一".toList).scheduleType.getD [])
      ((scheduleBody "weekly".toList "周一".toList).timeValue.getD []) = .error .typeError := h
  rw [h']

/-- The inputs on which `getCronExpression` raises: exactly the `weekly` schedules
whose timeValue has no `-`. -/
theorem getCronExpression_raises_iff (scheduleType timeValue : List Char) :
    (∃ err, getCronExpression scheduleType timeValue = .error err) ↔
      scheduleType = "weekly".toList ∧ '-' ∉ timeValue := by
  constructor
  · rintro ⟨err, h⟩
    unfold getCronExpression at h
    by_cases h1 : scheduleType = "interval".toList
    · rw [if_pos h1] at h
      simp only at h
      split at h <;> cases h
    · rw [if_neg h1] at h
      by_cases h2 : scheduleType = "daily".toList
      · rw [if_pos h2] at h
        exfalso
        cases hq : hourMinute timeValue with
        | mk oh om =>
          rw [hq] at h
          cases oh with
          | none => cases h
          | some hour =>
            cases om with
            | none => cases h
            | some minute =>
              simp only at h
              split at h <;> cases h
      · rw [if_neg h2] at h
        by_cases h3 : scheduleType = "weekly".toList
        · refine ⟨h3, fun hmem => ?_⟩
          rw [if_pos h3] at h
          obtain ⟨hlen, _⟩ := splitOn_of_mem '-' timeValue hmem
          cases hsp : splitOn '-' timeValue with
          | nil => rw [hsp] at hlen; simp at hlen
          | cons day tl =>
            cases tl with
            | nil => rw [hsp] at hlen; simp at hlen
            | cons time others =>
              rw [hsp] at h
              simp only [List.tail_cons, List.head?_cons, Option.getD_some] at h
              cases hd : getProp weekDays day with
              | none => rw [hd] at h; cases h
              | some d =>
                rw [hd] at h
                cases hq : hourMinute time with
                | mk oh om =>
                  rw [hq] at h
                  cases oh with
                  | none => cases h
                  | some hour =>
                    cases om with
                    | none => cases h
                    | some minute =>
                      simp only at h
                      split at h <;> cases h
        · rw [if_neg h3] at h
          cases h
  · rintro ⟨hw, hmem⟩
    have h1 : "weekly".toList ≠ "interval".toList := by decide
    have h2 : "weekly".toList ≠ "daily".toList := by decide
    refine ⟨.typeError, ?_⟩
    unfold getCronExpression
    rw [hw, if_neg h1, if_neg h2, if_pos rfl]
    simp [splitOn_of_not_mem '-' timeValue hmem]

/-- Every `weekly` timeValue without `-` makes `getCronExpression` raise. -/
theorem getCronExpression_weekly_no_dash (timeValue : List Char) (h : '-' ∉ timeValue) :
    getCronExpression "weekly".toList timeValue = .error .typeError := by
  have h1 : "weekly".toList ≠ "interval".toList := by decide
  have h2 : "weekly".toList ≠ "daily".toList := by decide
  unfold getCronExpression
  rw [if_neg h1, if_neg h2, if_pos rfl]
  simp [splitOn_of_not_mem '-' timeValue h]

theorem heldJob_stopped (st : State) :
    ∀ j, heldJob (stopped st) = some j → j.running = false := by
  intro j hj
  cases hc : st.cronJob with
  | none =>
    have hst : stopped st = st := by simp [stopped, hc]
    rw [hst] at hj
    simp [heldJob, hc] at hj
  | some k =>
    have hst : stopped st = { st with jobs := stopJob st.jobs k } := by simp [stopped, hc]
    rw [hst] at hj
    have hj' : (stopJob st.jobs k)[k]? = some j := by
      simpa [heldJob, hc] using hj
    rw [stopJob, List.getElem?_modify_eq, Option.map_eq_map, Option.map_eq_some'] at hj'
    obtain ⟨j0, _, hj0⟩ := hj'
    rw [← hj0]

/-- The part of the validation that works: a request to POST /setNotificationSettings
that is incomplete or whose schedule `getCronExpression` answers with `null` or an
error changes nothing.  The function `resetCronJob`, run while the stored settings have
no schedule or one for which `getCronExpression` returns `null`, keeps the stored
settings and `cronJob` and installs no trigger, and it stops the trigger held in
`cronJob`. -/
theorem invalid_reconfigure (cronValid : List Char → Bool) (st : State) (body : Settings) :
    ((missing body.telegramToken = true ∨ missing body.telegramChatId = true ∨
        missing body.scheduleType = true ∨ missing body.timeValue = true ∨
        getCronExpression (body.scheduleType.getD []) (body.timeValue.getD []) = .ok none ∨
        ∃ err, getCronExpression (body.scheduleType.getD []) (body.timeValue.getD [])
          = .error err) →
      (setNotificationSettings cronValid st body).1 = st ∧
        (setNotificationSettings cronValid st body).2 ≠ 200) ∧
    ((missing (getNotificationSettings st).scheduleType = true ∨
        missing (getNotificationSettings st).timeValue = true ∨
        getCronExpression ((getNotificationSettings st).scheduleType.getD [])
          ((getNotificationSettings st).timeValue.getD []) = .ok none) →
      (resetCronJob cronValid st).1.settingsFile = st.settingsFile ∧
        (resetCronJob cronValid st).1.cronJob = st.cronJob ∧
        (resetCronJob cronValid st).1.jobs.map Job.expression = st.jobs.map Job.expression ∧
        (∀ j, heldJob (resetCronJob cronValid st).1 = some j → j.running = false) ∧
        (Inv st → liveJobs (resetCronJob cronValid st).1 = [])) := by
  constructor
  · intro h
    rcases setNotificationSettings_cases cronValid st body with
      ⟨code, hcode, hc, _⟩ | ⟨hm3, hm4, hm1, hm2, ⟨e, he, _⟩, _, _⟩
    · rw [hc]; exact ⟨rfl, hcode⟩
    · exfalso
      rcases h with h | h | h | h | h | ⟨err, h⟩
      · rw [hm3] at h; cases h
      · rw [hm4] at h; cases h
      · rw [hm1] at h; cases h
      · rw [hm2] at h; cases h
      · rw [he] at h; cases h
      · rw [he] at h; cases h
  · intro h
    have hreset : (resetCronJob cronValid st).1 = stopped st := by
      rcases resetCronJob_cases cronValid st with ⟨r, hr⟩ | ⟨e, he, hm1, hm2, _, _⟩
      · rw [hr]
      · exfalso
        rcases h with h | h | h
        · rw [hm1] at h; cases h
        · rw [hm2] at h; cases h
        · rw [he] at h; cases h
    rw [hreset]
    obtain ⟨hf1, hf2, _, hf4⟩ := stopped_fields st
    exact ⟨hf1, hf2, hf4, heldJob_stopped st, liveJobs_stopped st⟩

/-- The function `resetCronJob` on a state with a live trigger and stored settings
without a schedule: no trigger is installed and the held one is stopped. -/
theorem resetCronJob_no_schedule_example :
    liveJobs liveState = [{ expression := "*/5 * * * *".toList, running := true }] ∧
    missing (getNotificationSettings liveState).scheduleType = true ∧
    (resetCronJob (fun _ => true) liveState).2 = .ok () ∧
    (resetCronJob (fun _ => true) liveState).1.jobs
      = [{ expression := "*/5 * * * *".toList, running := false }] ∧
    liveJobs (resetCronJob (fun _ => true) liveState).1 = [] := by
  decide

/-- A schedule that `getCronExpression` accepts and `cron.schedule` rejects: the handler
has saved the settings and `resetCronJob` has stopped the held trigger when the error
is raised, and the answer is 500. -/
theorem setNotificationSettings_cron_rejects (cronValid : List Char → Bool) (st : State)
    (body : Settings) (e : List Char)
    (hm1 : missing body.telegramToken = false) (hm2 : missing body.telegramChatId = false)
    (hm3 : missing body.scheduleType = false) (hm4 : missing body.timeValue = false)
    (he : getCronExpression (body.scheduleType.getD []) (body.timeValue.getD [])
      = .ok (some e))
    (hne : e.isEmpty = false) (hreject : cronValid e = false) :
    setNotificationSettings cronValid st body
      = (stopped (saveNotificationSettings st body), 500) := by
  have hreset := resetCronJob_valid cronValid (saveNotificationSettings st body) e
    (by simpa [getNotificationSettings, saveNotificationSettings] using hm3)
    (by simpa [getNotificationSettings, saveNotificationSettings] using hm4)
    (by simpa [getNotificationSettings, saveNotificationSettings] using he) hne
  rw [hreject] at hreset
  simp only [Bool.false_eq_true, if_false] at hreset
  unfold setNotificationSettings
  simp only [hm1, hm2, hm3, hm4, he, hne, hreset, Bool.or_self, Bool.false_eq_true, if_false]

/-- C7 (the code fails it): with a live trigger, POST /setNotificationSettings with the
schedule daily `25:99`, which is not a valid ScheduleSpec, passes the test of line 266
(`getCronExpression` returns `99 25 * * *`); the handler overwrites the stored settings
and `resetCronJob` stops the live trigger before `cron.schedule` raises on the
expression: the answer is 500, the stored settings are changed and no trigger is live. -/
theorem setNotificationSettings_invalid_side_effects (cronValid : List Char → Bool)
    (hreject : cronValid "99 25 * * *".toList = false) :
    getCronExpression "daily".toList "25:99".toList = .ok (some "99 25 * * *".toList) ∧
    liveJobs liveState = [{ expression := "*/5 * * * *".toList, running := true }] ∧
    setNotificationSettings cronValid liveState (scheduleBody "daily".toList "25:99".toList)
      = ({ jobs := [{ expression := "*/5 * * * *".toList, running := false }],
           cronJob := some 0,
           settingsFile := some (scheduleBody "daily".toList "25:99".toList) }, 500) ∧
    liveJobs (setNotificationSettings cronValid liveState
      (scheduleBody "daily".toList "25:99".toList)).1 = [] := by
  have hset := setNotificationSettings_cron_rejects cronValid liveState
    (scheduleBody "daily".toList "25:99".toList) "99 25 * * *".toList
    (by decide) (by decide) (by decide) (by decide) (by decide) (by decide) hreject
  have hst : stopped (saveNotificationSettings liveState
      (scheduleBody "daily".toList "25:99".toList))
      = { jobs := [{ expression := "*/5 * * * *".toList, running := false }],
          cronJob := some 0,
          settingsFile := some (scheduleBody "daily".toList "25:99".toList) } := by
    decide
  rw [hset, hst]
  exact ⟨by decide, by decide, rfl, by decide⟩

/-- The state `liveState` is reached from process start by a valid reconfiguration
(every 5 minutes) followed by POST /setTelegramSettings. -/
theorem liveState_reachable :
    run (fun e => e != "99 25 * * *".toList) none
        [.notificationSettings (scheduleBody "interval".toList "5".toList),
         .telegramSettings (scheduleBody "interval".toList "5".toList)]
      = liveState := by
  decide

theorem setNotificationSettings_invalid_side_effects_witness :
    getCronExpression "daily".toList "25:99".toList = .ok (some "99 25 * * *".toList) ∧
    liveJobs liveState = [{ expression := "*/5 * * * *".toList, running := true }] ∧
    setNotificationSettings (fun e => e != "99 25 * * *".toList) liveState
        (scheduleBody "daily".toList "25:99".toList)
      = ({ jobs := [{ expression := "*/5 * * * *".toList, running := false }],
           cronJob := some 0,
           settingsFile := some (scheduleBody "daily".toList "25:99".toList) }, 500) ∧
    liveJobs (setNotificationSettings (fun e => e != "99 25 * * *".toList) liveState
      (scheduleBody "daily".toList "25:99".toList)).1 = [] :=
  setNotificationSettings_invalid_side_effects (fun e => e != "99 25 * * *".toList)
    (by decide)

/-- C8: in every state reached from process start by `resetCronJob` calls and settings
updates, at most one task is live and a live task is the one held in `cronJob`; after
two successive reconfigurations answered with 200, exactly one task is live, it is held
in `cronJob`, and its expression is `getCronExpression` of the second schedule. -/
theorem at_most_one_live (cronValid : List Char → Bool) (file : Option Settings)
    (actions : List Action) :
    (liveJobs (run cronValid file actions)).length ≤ 1 ∧
    (∀ j ∈ liveJobs (run cronValid file actions),
      heldJob (run cronValid file actions) = some j) ∧
    (∀ (i : Nat) (j : Job), (run cronValid file actions).jobs[i]? = some j →
      j.running = true → (run cronValid file actions).cronJob = some i) ∧
    (∀ b1 b2 : Settings,
      (setNotificationSettings cronValid (run cronValid file actions) b1).2 = 200 →
      (setNotificationSettings cronValid
        (setNotificationSettings cronValid (run cronValid file actions) b1).1 b2).2 = 200 →
      ∃ e, getCronExpression (b2.scheduleType.getD []) (b2.timeValue.getD [])
          = .ok (some e) ∧
        liveJobs (setNotificationSettings cronValid
          (setNotificationSettings cronValid (run cronValid file actions) b1).1 b2).1
          = [{ expression := e, running := true }] ∧
        heldJob (setNotificationSettings cronValid
          (setNotificationSettings cronValid (run cronValid file actions) b1).1 b2).1
          = some { expression := e, running := true }) := by
  have hinv := inv_run cronValid file actions
  refine ⟨?_, ?_, hinv, ?_⟩
  · rcases live_of_inv _ hinv with h | ⟨j, h, _⟩ <;> simp [h]
  · intro j hj
    rcases live_of_inv _ hinv with h | ⟨j0, h, hheld⟩
    · rw [h] at hj; cases hj
    · rw [h] at hj
      rw [List.mem_singleton.mp hj]
      exact hheld
  · intro b1 b2 _ h2
    exact setNotificationSettings_ok cronValid _ b2
      (inv_setNotificationSettings cronValid _ b1 hinv) h2

theorem at_most_one_live_witness :
    ∃ e, getCronExpression
          ((scheduleBody "daily".toList "09:30".toList).scheduleType.getD [])
          ((scheduleBody "daily".toList "09:30".toList).timeValue.getD [])
          = .ok (some e) ∧
        liveJobs (setNotificationSettings (fun _ => true)
          (setNotificationSettings (fun _ => true) (run (fun _ => true) none [])
            (scheduleBody "interval".toList "15".toList)).1
          (scheduleBody "daily".toList "09:30".toList)).1
          = [{ expression := e, running := true }] ∧
        heldJob (setNotificationSettings (fun _ => true)
          (setNotificationSettings (fun _ => true) (run (fun _ => true) none [])
            (scheduleBody "interval".toList "15".toList)).1
          (scheduleBody "daily".toList "09:30".toList)).1
          = some { expression := e, running := true } :=
  (at_most_one_live (fun _ => true) none []).2.2.2
    (scheduleBody "interval".toList "15".toList)
    (scheduleBody "daily".toList "09:30".toList) (by decide) (by decide)

/-- Two reconfigurations in a row, every 15 minutes and then daily at 09:30: the first
task is stopped and the second one is the only live task. -/
theorem reconfigure_twice_example :
    (setNotificationSettings (fun _ => true)
        (setNotificationSettings (fun _ => true) (run (fun _ => true) none [])
          (scheduleBody "interval".toList "15".toList)).1
        (scheduleBody "daily".toList "09:30".toList)).1.jobs
      = [{ expression := "*/15 * * * *".toList, running := false },
         { expression := "30 9 * * *".toList, running := true }] := by
  decide

/-! ## Telegram report -/

theorem getProp_report (report : List (List Char × Entry)) (user : List Char)
    (hu : user ∈ objectKeys report) :
    ∃ e, getProp (report.map (fun p => (p.1, p.2.toJs))) user = some (Entry.toJs e) := by
  unfold getProp
  cases hf : (report.map (fun p => (p.1, p.2.toJs))).find? (fun p => p.1 = user) with
  | none =>
    exfalso
    rw [List.find?_eq_none] at hf
    obtain ⟨p, hp, hk⟩ := List.mem_map.mp hu
    exact hf (p.1, p.2.toJs) (List.mem_map.mpr ⟨p, hp, rfl⟩) (by simpa using hk)
  | some q =>
    obtain ⟨p, _, hq⟩ := List.mem_map.mp (List.mem_of_find?_eq_some hf)
    exact ⟨p.2, by rw [Option.map_some', ← hq]⟩

/-- The rows rendered for a report as GET /checkAccounts returns it: every row ends in
`[object Object]`, whatever the status of the account. -/
theorem renderRows_report (report : List (List Char × Entry)) :
    renderRows (report.map (fun p => (p.1, p.2.toJs))) =
      (objectKeys report).enum.map (fun p =>
        decimal (p.1 + 1) ++ ". ".toList ++
          padEnd p.2 (maxUserLength (report.map (fun p => (p.1, p.2.toJs)))) ++
          ": ".toList ++ "[object Object]".toList) := by
  have hkeys : objectKeys (report.map (fun p => (p.1, p.2.toJs))) = objectKeys report := by
    simp [objectKeys, Function.comp_def]
  unfold renderRows
  rw [hkeys]
  apply List.map_congr_left
  intro p hp
  have hmem : p.2 ∈ objectKeys report := by
    obtain ⟨_, heq⟩ := List.mem_enum hp
    rw [heq]
    exact List.getElem_mem _
  obtain ⟨e, he⟩ := getProp_report report p.2 hmem
  simp only [renderRow, he, Option.getD_some]
  rfl

/-- C9 (the code fails it): for the report `{alice: {status: "正常", season: "--"},
bob: {status: "检测失败", season: "--"}}` the rows carry the index and the padded
identifier, but `[object Object]` in place of the status. -/
theorem renderRows_status_bug :
    renderRows
        [("alice".toList, Entry.toJs { status := "正常".toList, season := .str "--".toList }),
         ("bob".toList, Entry.toJs { status := "检测失败".toList, season := .str "--".toList })]
      = ["1. alice: [object Object]".toList, "2. bob  : [object Object]".toList] := by
  decide

/-! ## Cron step semantics -/

theorem stepFires_iff_dvd (m t : Nat) (hdiv : m ∣ 60) : stepFires m t = true ↔ m ∣ t := by
  unfold stepFires
  rw [beq_iff_eq, Nat.mod_mod_of_dvd t hdiv]
  exact (Nat.dvd_iff_mod_eq_zero ..).symm

/-- C10 (amended): for a positive `m` that divides 60, the expression returned for
Interval(m) is `*/m * * * *`, it fires exactly at the minutes that are multiples of
`m`, and any two consecutive firings are `m` minutes apart. -/
theorem interval_gap (m t1 t2 : Nat) (hm : 0 < m) (hdiv : m ∣ 60)
    (hcons : Consecutive m t1 t2) :
    getCronExpression "interval".toList (decimal m)
      = .ok (some ("*/".toList ++ decimal m ++ " * * * *".toList)) ∧
    (∀ t, stepFires m t = true ↔ m ∣ t) ∧ t2 = t1 + m := by
  have hle : m ≤ 60 := Nat.le_of_dvd (by decide) hdiv
  have hexpr := getCronExpression_interval m 0 hm (by norm_num; omega)
  simp only [numeral, List.replicate_zero, List.nil_append] at hexpr
  refine ⟨hexpr, fun t => stepFires_iff_dvd m t hdiv, ?_⟩
  obtain ⟨hlt, h1, h2, hbetween⟩ := hcons
  rw [stepFires_iff_dvd m _ hdiv] at h1 h2
  obtain ⟨a, ha⟩ := h1
  obtain ⟨b, hb⟩ := h2
  have hab : a < b := by
    by_contra hnot
    have : m * b ≤ m * a := Nat.mul_le_mul_left m (by omega)
    omega
  have hnext : stepFires m (t1 + m) = true := by
    rw [stepFires_iff_dvd m _ hdiv, ha]
    exact ⟨a + 1, by ring⟩
  have hge : t1 + m ≤ t2 := by
    have : m * (a + 1) ≤ m * b := Nat.mul_le_mul_left m (by omega)
    rw [ha, hb]
    calc m * a + m = m * (a + 1) := by ring
      _ ≤ m * b := this
  by_contra hne
  have hlt2 : t1 + m < t2 := by omega
  have := hbetween (t1 + m) (by omega) hlt2
  rw [hnext] at this
  cases this

theorem interval_gap_witness :
    getCronExpression "interval".toList (decimal 15)
      = .ok (some ("*/".toList ++ decimal 15 ++ " * * * *".toList)) ∧
    (∀ t, stepFires 15 t = true ↔ 15 ∣ t) ∧ 60 = 45 + 15 :=
  interval_gap 15 45 60 (by decide) (by decide)
    ⟨by decide, by decide, by decide, by
      intro t h1 h2
      simp only [stepFires, beq_eq_false_iff_ne]
      omega⟩

/-- C10 (as stated) fails: for `m = 7` the firings at minutes 56 and 60 are consecutive
and 4 minutes apart, and for `m = 90` the firings at minutes 0 and 60 are consecutive
and 60 minutes apart. -/
theorem interval_gap_counterexample :
    (Consecutive 7 56 60 ∧ 60 - 56 ≠ 7) ∧ (Consecutive 90 0 60 ∧ 60 - 0 ≠ 90) := by
  refine ⟨⟨⟨by decide, by decide, by decide, ?_⟩, by decide⟩,
    ⟨⟨by decide, by decide, by decide, ?_⟩, by decide⟩⟩
  · intro t h1 h2
    interval_cases t <;> rfl
  · intro t h1 h2
    simp only [stepFires, beq_eq_false_iff_ne]
    omega

end Serv00
